import Mathlib

/-!
Verification development for the reconciliation engine of the
Smart-Reconciliation-Visualizer repository.

The definitions below are a shallow embedding of `src/lib/reconcile.ts`
(together with the row type from `src/lib/csv.ts`).  Rows are association
lists from column names to string values; JavaScript strings are Lean
strings (character lists); JavaScript numbers are modelled as exact
rationals; the fallible helpers return `Option`; the one thrown error is
modelled with `Except`.  Functions of the JavaScript runtime used by the
source (`String.prototype.trim`, `toLowerCase`, the `\s` regex class,
`Number`, `new Date`, `toFixed`) are modelled explicitly; each such model
carries a doc comment saying what it covers.
-/

/-- A parsed CSV row (`CsvRow` in `src/lib/csv.ts`): an ordered mapping from
column names to string values. -/
abbrev CsvRow := List (String × String)

/-- Field access as the source performs it: `row[c] ?? ''` — a missing
column reads as the empty string. -/
def getField (row : CsvRow) (c : String) : String := (row.lookup c).getD ""

/-- `MatchStatus` from `src/lib/reconcile.ts`. -/
inductive MatchStatus where
  | matched
  | mismatched
  | missing_in_left
  | missing_in_right
  | duplicate_key
deriving DecidableEq, Repr

/-- `DatasetConfig` from `src/lib/reconcile.ts`; the optional columns are
`Option` values (absent ↦ `none`). -/
structure DatasetConfig where
  keyColumns : List String
  amountColumn : Option String
  dateColumn : Option String
deriving DecidableEq, Repr

/-- `ReconcileConfig` from `src/lib/reconcile.ts`; the tolerance is an
exact rational standing for the JavaScript number. -/
structure ReconcileConfig where
  left : DatasetConfig
  right : DatasetConfig
  amountTolerance : ℚ
deriving DecidableEq, Repr

/-- `ReconcileRowResult` from `src/lib/reconcile.ts`. -/
structure ReconcileRowResult where
  status : MatchStatus
  key : String
  leftRow : Option CsvRow
  rightRow : Option CsvRow
  reasons : List String
deriving DecidableEq, Repr

/-- `ReconcileSummary` from `src/lib/reconcile.ts`. -/
structure ReconcileSummary where
  leftCount : Nat
  rightCount : Nat
  matched : Nat
  mismatched : Nat
  missingInLeft : Nat
  missingInRight : Nat
  duplicateKey : Nat
deriving DecidableEq, Repr

/-- `ReconcileResult` from `src/lib/reconcile.ts`. -/
structure ReconcileResult where
  rows : List ReconcileRowResult
  summary : ReconcileSummary
deriving DecidableEq, Repr

/-- Model of JavaScript `String.prototype.trim` on the trailing side: drop
trailing whitespace characters.  Whitespace is Lean's `Char.isWhitespace`
(space, tab, carriage return, newline), the ASCII fragment of the
JavaScript whitespace class. -/
def dropTrailWs : List Char → List Char
  | [] => []
  | c :: rest =>
      let r := dropTrailWs rest
      if r.isEmpty && c.isWhitespace then [] else c :: r

/-- Model of JavaScript `String.prototype.trim`: drop leading and trailing
whitespace. -/
def trimChars (l : List Char) : List Char :=
  dropTrailWs (l.dropWhile Char.isWhitespace)

/-- Model of JavaScript `String.prototype.trim` at the `String` level. -/
def jsTrim (s : String) : String := String.mk (trimChars s.data)

/-- Model of the regex replacement `.replace(/\s+/g, ' ')`: every maximal
run of whitespace becomes a single space.  The boolean flag records
whether the previous character was part of a whitespace run already
replaced. -/
def collapseWsAux : Bool → List Char → List Char
  | _, [] => []
  | prevWs, c :: rest =>
      if c.isWhitespace then
        if prevWs then collapseWsAux true rest
        else ' ' :: collapseWsAux true rest
      else c :: collapseWsAux false rest

/-- `normalizeKeyPart` from `src/lib/reconcile.ts`:
trim, lowercase, collapse whitespace runs to single spaces.
`Char.toLower` models JavaScript `toLowerCase` on the ASCII range. -/
def normalizeKeyPart (value : String) : String :=
  String.mk (collapseWsAux false ((trimChars value.data).map Char.toLower))

/-- `normalizeKey` from `src/lib/reconcile.ts`: normalize each key column
value and join with the fixed separator. -/
def normalizeKey (row : CsvRow) (keyColumns : List String) : String :=
  String.intercalate " | " (keyColumns.map (fun c => normalizeKeyPart (getField row c)))

/-- Numeric value of a list of decimal digit characters. -/
def digitsVal (l : List Char) : Nat :=
  l.foldl (fun a c => a * 10 + (c.toNat - '0'.toNat)) 0

/-- Unsigned decimal literal to an exact rational: digits with an optional
decimal point (`"12"`, `"12."`, `".5"`, `"12.5"`). -/
def parseUnsignedDec (l : List Char) : Option ℚ :=
  let ip := l.takeWhile Char.isDigit
  let r := l.dropWhile Char.isDigit
  match r with
  | [] => if ip.isEmpty then none else some (digitsVal ip)
  | '.' :: fp =>
      if fp.all Char.isDigit ∧ (ip ≠ [] ∨ fp ≠ []) then
        some ((digitsVal ip : ℚ) + (digitsVal fp : ℚ) / ((10 : ℚ) ^ fp.length))
      else none
  | _ => none

/-- Model of the ECMAScript `Number(string)` conversion used by the source,
restricted to optionally signed plain decimal literals; the empty string
converts to `0` as in JavaScript.  Exponent, hexadecimal and `Infinity`
forms are not modelled (the source rejects non-finite results anyway). -/
def jsNumber (l : List Char) : Option ℚ :=
  if l.isEmpty then some 0
  else
    match l with
    | '-' :: rest => (parseUnsignedDec rest).map (fun q => -q)
    | '+' :: rest => parseUnsignedDec rest
    | _ => parseUnsignedDec l

/-- The two cleanup regex replacements of `parseAmount`: first remove
commas and whitespace, then remove the listed currency symbols. -/
def cleanedAmount (l : List Char) : List Char :=
  (l.filter (fun c => !(c = ',' || c.isWhitespace))).filter
    (fun c => !(c = '₹' || c = '$' || c = '€' || c = '£'))

/-- `parseAmount` from `src/lib/reconcile.ts`. -/
def parseAmount (value : String) : Option ℚ :=
  let raw := jsTrim value
  if raw = "" then none
  else jsNumber (cleanedAmount raw.data)

/-- Whether a year is a Gregorian leap year. -/
def isLeap (y : Nat) : Bool :=
  y % 4 = 0 && (y % 100 ≠ 0 || y % 400 = 0)

/-- Days in a month of a given year. -/
def daysInMonth (y m : Nat) : Nat :=
  if m = 2 then (if isLeap y then 29 else 28)
  else if m = 4 ∨ m = 6 ∨ m = 9 ∨ m = 11 then 30
  else 31

/-- Model of the ECMAScript date parser `new Date(string)` as implemented
by the mainstream engines, restricted to the two shapes relevant here:
the ISO form `YYYY-MM-DD` (four-digit year, two-digit month and day,
which ECMA-262 mandates), and the US-style slash or dash form
`M[M]/D[D]/Y...` in which the FIRST group is the month — the de-facto
behaviour of V8, SpiderMonkey and JavaScriptCore — including the legacy
two-digit-year windowing those engines apply (year values 0–49 become
2000–2049, values 50–99 become 1950–1999).  Out-of-range months or days
give an invalid date (`none`); other textual forms are not modelled and
also give `none`.  The local time zone is taken to be UTC, so the
local-time getters used by the source return the parsed calendar date. -/
def jsDateParse (s : String) : Option (Nat × Nat × Nat) :=
  let l := s.data
  let g1 := l.takeWhile Char.isDigit
  let r1 := l.dropWhile Char.isDigit
  match r1 with
  | sep1 :: r2 =>
      let g2 := r2.takeWhile Char.isDigit
      let r3 := r2.dropWhile Char.isDigit
      match r3 with
      | sep2 :: r4 =>
          let g3 := r4.takeWhile Char.isDigit
          let r5 := r4.dropWhile Char.isDigit
          if r5 = [] ∧ g2.length ≠ 0 ∧ g3.length ≠ 0 then
            if g1.length = 4 ∧ sep1 = '-' ∧ sep2 = '-' ∧ g2.length = 2 ∧ g3.length = 2 then
              let y := digitsVal g1
              let m := digitsVal g2
              let d := digitsVal g3
              if 1 ≤ m ∧ m ≤ 12 ∧ 1 ≤ d ∧ d ≤ daysInMonth y m then some (y, m, d)
              else none
            else if g1.length ≤ 2 ∧ g1.length ≠ 0 ∧ g2.length ≤ 2 ∧ g3.length ≤ 4 ∧
                (sep1 = '/' ∨ sep1 = '-') ∧ sep2 = sep1 then
              let m := digitsVal g1
              let d := digitsVal g2
              let y0 := digitsVal g3
              let y := if y0 < 50 then 2000 + y0 else if y0 < 100 then 1900 + y0 else y0
              if 1 ≤ m ∧ m ≤ 12 ∧ 1 ≤ d ∧ d ≤ daysInMonth y m then some (y, m, d)
              else none
            else none
          else none
      | [] => none
  | [] => none

/-- Zero-pad a number to two digits (`String(n).padStart(2, '0')`). -/
def pad2 (n : Nat) : String :=
  if n < 10 then "0" ++ toString n else toString n

/-- The fallback regex of `toYmd`: one or two digits, a `/` or `-`
separator, one or two digits, another `/` or `-` separator, then two to
four digits, anchored at both ends; it returns the three digit groups.
The input is already trimmed by the caller, so the outer whitespace
allowance of the regex matches the empty string. -/
def splitDateGroups (l : List Char) : Option (List Char × List Char × List Char) :=
  let g1 := l.takeWhile Char.isDigit
  let r1 := l.dropWhile Char.isDigit
  if g1.length < 1 ∨ 2 < g1.length then none
  else
    match r1 with
    | s1 :: r2 =>
        if s1 = '/' ∨ s1 = '-' then
          let g2 := r2.takeWhile Char.isDigit
          let r3 := r2.dropWhile Char.isDigit
          if g2.length < 1 ∨ 2 < g2.length then none
          else
            match r3 with
            | s2 :: r4 =>
                if s2 = '/' ∨ s2 = '-' then
                  let g3 := r4.takeWhile Char.isDigit
                  let r5 := r4.dropWhile Char.isDigit
                  if 2 ≤ g3.length ∧ g3.length ≤ 4 ∧ r5 = [] then some (g1, g2, g3)
                  else none
                else none
            | [] => none
        else none
    | [] => none

/-- `padStart(2, '0')` on a digit group kept as text. -/
def padGroup2 (g : List Char) : String :=
  if g.length = 1 then "0" ++ String.mk g else String.mk g

/-- Two-digit years get the century prefix `"20"`. -/
def expandYear (g : List Char) : String :=
  if g.length = 2 then "20" ++ String.mk g else String.mk g

/-- `toYmd` from `src/lib/reconcile.ts`: trim; try the general date parse
and format its calendar date as `YYYY-MM-DD`; otherwise try the
`D[D]/M[M]/Y[Y[Y][Y]]` fallback, reading the first group as the day. -/
def toYmd (value : String) : Option String :=
  let raw := jsTrim value
  if raw = "" then none
  else
    match jsDateParse raw with
    | some (y, m, d) => some (toString y ++ "-" ++ pad2 m ++ "-" ++ pad2 d)
    | none =>
        match splitDateGroups raw.data with
        | some (g1, g2, g3) =>
            some (expandYear g3 ++ "-" ++ padGroup2 g2 ++ "-" ++ padGroup2 g1)
        | none => none

/-- `BucketItem` from `src/lib/reconcile.ts`. -/
structure BucketItem where
  row : CsvRow
  used : Bool
deriving DecidableEq, Repr

/-- The right-side index: a `Map` from composite key to bucket items, in
key insertion order (JavaScript `Map` preserves it). -/
abbrev Buckets := List (String × List BucketItem)

/-- `buckets.get(key)`: the first (and only) entry with this key. -/
def bucketsGet : Buckets → String → Option (List BucketItem)
  | [], _ => none
  | (k, items) :: rest, key => if k = key then some items else bucketsGet rest key

/-- One step of `buildBuckets`: append the row to the existing bucket for
the key, or create a new bucket at the end (`Map.set` keeps the original
position of an existing key). -/
def bucketsInsert (bs : Buckets) (key : String) (row : CsvRow) : Buckets :=
  match bs with
  | [] => [(key, [⟨row, false⟩])]
  | (k, items) :: rest =>
      if k = key then (k, items ++ [⟨row, false⟩]) :: rest
      else (k, items) :: bucketsInsert rest key row

/-- `buildBuckets` from `src/lib/reconcile.ts`: index the rows by
normalized composite key, skipping blank keys. -/
def buildBuckets (rows : List CsvRow) (keyColumns : List String) : Buckets :=
  rows.foldl
    (fun bs row =>
      let key := normalizeKey row keyColumns
      if key = "" then bs else bucketsInsert bs key row)
    []

/-- `candidate.used = true`: flip the first unconsumed item of a bucket. -/
def markFirstUnused : List BucketItem → List BucketItem
  | [] => []
  | item :: rest =>
      if item.used then item :: markFirstUnused rest
      else { item with used := true } :: rest

/-- Apply `markFirstUnused` to the bucket stored under `key` (the mutation
of the aliased bucket item in the source). -/
def bucketsMark : Buckets → String → Buckets
  | [], _ => []
  | (k, items) :: rest, key =>
      if k = key then (k, markFirstUnused items) :: rest
      else (k, items) :: bucketsMark rest key

/-- Model of JavaScript `Number.prototype.toFixed(2)` for the difference
display: round half away from zero at two decimals on the exact
rational. -/
def toFixed2 (q : ℚ) : String :=
  let t : ℚ := |q| * 100
  let n : Nat := (Int.floor (t + 1 / 2)).toNat
  let sign := if q < 0 ∧ n ≠ 0 then "-" else ""
  sign ++ toString (n / 100) ++ "." ++ pad2 (n % 100)

/-- Digits of the fractional part of `r / d` by long division, with fuel.
Used only to display the tolerance. -/
def fracDigits : Nat → Nat → Nat → String
  | 0, _, _ => ""
  | _, 0, _ => ""
  | fuel + 1, r, d =>
      let r10 := r * 10
      toString (r10 / d) ++ fracDigits fuel (r10 % d) d

/-- Model of the JavaScript template interpolation of the tolerance value
(a number-to-string conversion), rendering the exact decimal expansion
of the rational for the finite decimals that occur in practice. -/
def ratToString (q : ℚ) : String :=
  let sign := if q < 0 then "-" else ""
  let n := q.num.natAbs
  let d := q.den
  if n % d = 0 then sign ++ toString (n / d)
  else sign ++ toString (n / d) ++ "." ++ fracDigits 20 (n % d) d

/-- The amount-comparison block of `reconcileDatasets` (lines 159–170):
performed only when both sides declare an amount column (the JavaScript
truthiness test also excludes the empty column name), and contributing
either an unparseable-amount reason or an over-tolerance difference
reason. -/
def amountReasons (config : ReconcileConfig) (leftRow rightRow : CsvRow) : List String :=
  match config.left.amountColumn, config.right.amountColumn with
  | some lc, some rc =>
      if lc ≠ "" ∧ rc ≠ "" then
        match parseAmount (getField leftRow lc), parseAmount (getField rightRow rc) with
        | some la, some ra =>
            let diff := |la - ra|
            if diff > config.amountTolerance then
              ["Amount differs by " ++ toFixed2 diff ++ " (tolerance " ++
                ratToString config.amountTolerance ++ ")"]
            else []
        | _, _ => ["Amount missing or unparseable"]
      else []
  | _, _ => []

/-- The date-comparison block of `reconcileDatasets` (lines 172–180). -/
def dateReasons (config : ReconcileConfig) (leftRow rightRow : CsvRow) : List String :=
  match config.left.dateColumn, config.right.dateColumn with
  | some lc, some rc =>
      if lc ≠ "" ∧ rc ≠ "" then
        match toYmd (getField leftRow lc), toYmd (getField rightRow rc) with
        | some ld, some rd =>
            if ld ≠ rd then ["Date differs (" ++ ld ++ " vs " ++ rd ++ ")"] else []
        | _, _ => ["Date missing or unparseable"]
      else []
  | _, _ => []

/-- The full reason accumulation for a consumed pair (lines 153–180): the
informational duplicate-key reason first, then the amount block, then the
date block. -/
def compareRowReasons (config : ReconcileConfig) (isDup : Bool)
    (leftRow rightRow : CsvRow) : List String :=
  (if isDup then ["Duplicate key in right dataset (multiple rows)"] else []) ++
    amountReasons config leftRow rightRow ++ dateReasons config leftRow rightRow

/-- The mutable state of the left scan: the (mutated) buckets, the results
pushed so far, and the four counters updated by the loop. -/
structure ScanState where
  buckets : Buckets
  results : List ReconcileRowResult
  matched : Nat
  mismatched : Nat
  missingInRight : Nat
  duplicateKey : Nat

/-- The body of the left-scan loop of `reconcileDatasets` (lines 126–189)
for one left row. -/
def processLeftRow (config : ReconcileConfig) (dupKeys : List String)
    (st : ScanState) (leftRow : CsvRow) : ScanState :=
  let key := normalizeKey leftRow config.left.keyColumns
  if key = "" then st
  else
    match bucketsGet st.buckets key with
    | none =>
        { st with
          missingInRight := st.missingInRight + 1,
          results := st.results ++
            [{ status := .missing_in_right, key := key, leftRow := some leftRow,
               rightRow := none, reasons := ["No matching key in right dataset"] }] }
    | some bucket =>
        if bucket.length = 0 then
          { st with
            missingInRight := st.missingInRight + 1,
            results := st.results ++
              [{ status := .missing_in_right, key := key, leftRow := some leftRow,
                 rightRow := none, reasons := ["No matching key in right dataset"] }] }
        else
          match bucket.find? (fun b => !b.used) with
          | none =>
              { st with
                duplicateKey := st.duplicateKey + 1,
                results := st.results ++
                  [{ status := .duplicate_key, key := key, leftRow := some leftRow,
                     rightRow := some (bucket.headD ⟨[], false⟩).row,
                     reasons := ["Multiple rows share this key in the right dataset"] }] }
          | some candidate =>
              let newBuckets := bucketsMark st.buckets key
              let reasons := compareRowReasons config (dupKeys.contains key) leftRow candidate.row
              if reasons = [] then
                { st with
                  buckets := newBuckets,
                  matched := st.matched + 1,
                  results := st.results ++
                    [{ status := .matched, key := key, leftRow := some leftRow,
                       rightRow := some candidate.row, reasons := [] }] }
              else
                { st with
                  buckets := newBuckets,
                  mismatched := st.mismatched + 1,
                  results := st.results ++
                    [{ status := .mismatched, key := key, leftRow := some leftRow,
                       rightRow := some candidate.row, reasons := reasons }] }

/-- The inner loop of the residual scan (lines 194–215): walk one bucket's
items, reporting every unconsumed item.  The accumulator carries the
result list, the `missingInLeft` counter and the `duplicateKey` counter. -/
def residualItems (isDup : Bool) (key : String) :
    List BucketItem → (List ReconcileRowResult × Nat × Nat) →
      List ReconcileRowResult × Nat × Nat
  | [], acc => acc
  | item :: rest, acc =>
      if item.used then residualItems isDup key rest acc
      else if isDup then
        residualItems isDup key rest
          (acc.1 ++
            [{ status := .duplicate_key, key := key, leftRow := none,
               rightRow := some item.row,
               reasons := ["Duplicate key in right dataset (multiple rows)"] }],
            acc.2.1, acc.2.2 + 1)
      else
        residualItems isDup key rest
          (acc.1 ++
            [{ status := .missing_in_left, key := key, leftRow := none,
               rightRow := some item.row,
               reasons := ["No matching key in left dataset"] }],
            acc.2.1 + 1, acc.2.2)

/-- The residual scan of `reconcileDatasets` (lines 191–216), iterating the
buckets in insertion order. -/
def residualAll (dupKeys : List String) :
    Buckets → (List ReconcileRowResult × Nat × Nat) →
      List ReconcileRowResult × Nat × Nat
  | [], acc => acc
  | (k, items) :: rest, acc =>
      residualAll dupKeys rest (residualItems (dupKeys.contains k) k items acc)

/-- `reconcileDatasets` from `src/lib/reconcile.ts`.  The thrown
configuration error is the `Except.error` case. -/
def reconcileDatasets (leftRows rightRows : List CsvRow) (config : ReconcileConfig) :
    Except String ReconcileResult :=
  if config.left.keyColumns.length = 0 ∨ config.right.keyColumns.length = 0 then
    .error "Select at least one key column for both datasets."
  else
    let rightBuckets := buildBuckets rightRows config.right.keyColumns
    let duplicateRightKeys :=
      rightBuckets.filterMap (fun p => if p.2.length > 1 then some p.1 else none)
    let st :=
      leftRows.foldl (processLeftRow config duplicateRightKeys)
        { buckets := rightBuckets, results := [], matched := 0, mismatched := 0,
          missingInRight := 0, duplicateKey := 0 }
    let res := residualAll duplicateRightKeys st.buckets (st.results, 0, st.duplicateKey)
    .ok
      { rows := res.1,
        summary :=
          { leftCount := leftRows.length, rightCount := rightRows.length,
            matched := st.matched, mismatched := st.mismatched,
            missingInLeft := res.2.1, missingInRight := st.missingInRight,
            duplicateKey := res.2.2 } }

/-! ### Helper projections used by concrete counterexample statements -/

/-- Summary of a reconciliation outcome (zeros when the call failed). -/
def summaryOf : Except String ReconcileResult → ReconcileSummary
  | .ok out => out.summary
  | .error _ => ⟨0, 0, 0, 0, 0, 0, 0⟩

/-- Result rows of a reconciliation outcome (empty when the call failed). -/
def rowsOf : Except String ReconcileResult → List ReconcileRowResult
  | .ok out => out.rows
  | .error _ => []

/-- A configuration with one key column per side and no optional columns. -/
def keyOnlyConfig : ReconcileConfig := ⟨⟨["k"], none, none⟩, ⟨["k"], none, none⟩, 0⟩

/-- A configuration comparing an amount column with tolerance 1. -/
def amtConfig : ReconcileConfig := ⟨⟨["k"], some "amt", none⟩, ⟨["k"], some "amt", none⟩, 1⟩

/-! ### C10: summary totals -/

/-- C10: for every input with both keyColumns non-empty, `summary.leftCount`
is the total number of input left rows and `summary.rightCount` the total
number of input right rows, regardless of blank-key exclusions. -/
theorem claim_C10_totals (l r : List CsvRow) (c : ReconcileConfig)
    (hL : c.left.keyColumns ≠ []) (hR : c.right.keyColumns ≠ []) :
    ∃ out, reconcileDatasets l r c = .ok out ∧
      out.summary.leftCount = l.length ∧ out.summary.rightCount = r.length := by
  have h : ¬(c.left.keyColumns.length = 0 ∨ c.right.keyColumns.length = 0) := by
    simp [List.length_eq_zero, hL, hR]
  rw [reconcileDatasets, if_neg h]
  exact ⟨_, rfl, rfl, rfl⟩

/-- Witness for C10 at a concrete input. -/
theorem claim_C10_totals_witness :
    ∃ out, reconcileDatasets [[("k", "a")]] [] keyOnlyConfig = .ok out ∧
      out.summary.leftCount = 1 ∧ out.summary.rightCount = 0 := by
  have h := claim_C10_totals [[("k", "a")]] [] keyOnlyConfig
    (by simp [keyOnlyConfig]) (by simp [keyOnlyConfig])
  simpa using h

/-! ### C4: the configuration error -/

/-- C4: `reconcileDatasets` fails if and only if one side has no key
columns, and then with exactly the configuration error message; there is
no partial result because the `Except` carries none. -/
theorem claim_C4_config_error (l r : List CsvRow) (c : ReconcileConfig) :
    ((∃ e, reconcileDatasets l r c = .error e) ↔
      (c.left.keyColumns = [] ∨ c.right.keyColumns = [])) ∧
    ((c.left.keyColumns = [] ∨ c.right.keyColumns = []) →
      reconcileDatasets l r c =
        .error "Select at least one key column for both datasets.") := by
  by_cases h : c.left.keyColumns.length = 0 ∨ c.right.keyColumns.length = 0
  · have herr : reconcileDatasets l r c =
        .error "Select at least one key column for both datasets." := by
      rw [reconcileDatasets, if_pos h]
    have hnil : c.left.keyColumns = [] ∨ c.right.keyColumns = [] := by
      rcases h with h | h
      · exact Or.inl (List.length_eq_zero.mp h)
      · exact Or.inr (List.length_eq_zero.mp h)
    exact ⟨⟨fun _ => hnil, fun _ => ⟨_, herr⟩⟩, fun _ => herr⟩
  · have hne : ∀ e, reconcileDatasets l r c ≠ .error e := by
      intro e he
      rw [reconcileDatasets, if_neg h] at he
      exact absurd he (by simp)
    have hnil : ¬(c.left.keyColumns = [] ∨ c.right.keyColumns = []) := by
      intro hc
      apply h
      rcases hc with hc | hc
      · exact Or.inl (by simp [hc])
      · exact Or.inr (by simp [hc])
    constructor
    · constructor
      · rintro ⟨e, he⟩
        exact absurd he (hne e)
      · intro hc
        exact absurd hc hnil
    · intro hc
      exact absurd hc hnil

/-- Witness for C4 at a concrete failing configuration. -/
theorem claim_C4_config_error_witness :
    reconcileDatasets [] [] ⟨⟨[], none, none⟩, ⟨["k"], none, none⟩, 0⟩ =
      .error "Select at least one key column for both datasets." :=
  (claim_C4_config_error [] [] ⟨⟨[], none, none⟩, ⟨["k"], none, none⟩, 0⟩).2
    (Or.inl rfl)

/-! ### C3: date normalization -/

/-- C3 (evaluation): the ISO input normalizes to itself, but `"01/12/2025"`
is captured by the general date parse as the US month/day form and
normalizes to `"2025-01-12"`, not `"2025-12-01"` as the specification
claims — the engines' two-digit-year windowing captures `"1/2/25"` the
same way; the day-first fallback (with its `"20"` year expansion) applies
only when the general parse fails, as for `"13/12/2025"` and
`"13/12/25"`. -/
theorem claim_C3_dates :
    toYmd "2025-12-01" = some "2025-12-01" ∧
    toYmd "01/12/2025" = some "2025-01-12" ∧
    toYmd "1/2/25" = some "2025-01-02" ∧
    toYmd "13/12/2025" = some "2025-12-13" ∧
    toYmd "13/12/25" = some "2025-12-13" := by
  exact ⟨by decide, by decide, by decide, by decide, by decide⟩

/-! ### Case lemmas for one step of the left scan -/

/-- A blank-key left row is skipped without any effect. -/
theorem processLeftRow_blank (c : ReconcileConfig) (dk : List String) (st : ScanState)
    (row : CsvRow) (hkey : normalizeKey row c.left.keyColumns = "") :
    processLeftRow c dk st row = st := by
  simp [processLeftRow, hkey]

/-- A non-blank left row whose key has no (or an empty) bucket is reported
missing-in-right. -/
theorem processLeftRow_missing (c : ReconcileConfig) (dk : List String) (st : ScanState)
    (row : CsvRow) (hkey : normalizeKey row c.left.keyColumns ≠ "")
    (hget : bucketsGet st.buckets (normalizeKey row c.left.keyColumns) = none ∨
      bucketsGet st.buckets (normalizeKey row c.left.keyColumns) = some []) :
    processLeftRow c dk st row =
      { st with
        missingInRight := st.missingInRight + 1,
        results := st.results ++
          [{ status := .missing_in_right, key := normalizeKey row c.left.keyColumns,
             leftRow := some row, rightRow := none,
             reasons := ["No matching key in right dataset"] }] } := by
  rcases hget with hget | hget <;> simp [processLeftRow, hkey, hget]

/-- A non-blank left row whose bucket exists but is fully consumed is
reported as a duplicate key, displaying the first bucket entry. -/
theorem processLeftRow_exhausted (c : ReconcileConfig) (dk : List String) (st : ScanState)
    (row : CsvRow) (bucket : List BucketItem)
    (hkey : normalizeKey row c.left.keyColumns ≠ "")
    (hget : bucketsGet st.buckets (normalizeKey row c.left.keyColumns) = some bucket)
    (hne : bucket ≠ [])
    (hfind : bucket.find? (fun b => !b.used) = none) :
    processLeftRow c dk st row =
      { st with
        duplicateKey := st.duplicateKey + 1,
        results := st.results ++
          [{ status := .duplicate_key, key := normalizeKey row c.left.keyColumns,
             leftRow := some row, rightRow := some (bucket.headD ⟨[], false⟩).row,
             reasons := ["Multiple rows share this key in the right dataset"] }] } := by
  have hlen : ¬ bucket.length = 0 := by simpa [List.length_eq_zero] using hne
  simp [processLeftRow, hkey, hget, hlen, hfind]

/-- A non-blank left row whose bucket has an unconsumed candidate consumes
it and is classified by the accumulated reasons. -/
theorem processLeftRow_consume (c : ReconcileConfig) (dk : List String) (st : ScanState)
    (row : CsvRow) (bucket : List BucketItem) (cand : BucketItem)
    (hkey : normalizeKey row c.left.keyColumns ≠ "")
    (hget : bucketsGet st.buckets (normalizeKey row c.left.keyColumns) = some bucket)
    (hfind : bucket.find? (fun b => !b.used) = some cand) :
    processLeftRow c dk st row =
      (if compareRowReasons c (dk.contains (normalizeKey row c.left.keyColumns))
            row cand.row = [] then
        { st with
          buckets := bucketsMark st.buckets (normalizeKey row c.left.keyColumns),
          matched := st.matched + 1,
          results := st.results ++
            [{ status := .matched, key := normalizeKey row c.left.keyColumns,
               leftRow := some row, rightRow := some cand.row, reasons := [] }] }
      else
        { st with
          buckets := bucketsMark st.buckets (normalizeKey row c.left.keyColumns),
          mismatched := st.mismatched + 1,
          results := st.results ++
            [{ status := .mismatched, key := normalizeKey row c.left.keyColumns,
               leftRow := some row, rightRow := some cand.row,
               reasons := compareRowReasons c
                 (dk.contains (normalizeKey row c.left.keyColumns)) row cand.row }] }) := by
  have hne : bucket ≠ [] := by
    intro h0
    rw [h0] at hfind
    simp at hfind
  have hlen : ¬ bucket.length = 0 := by simpa [List.length_eq_zero] using hne
  by_cases hrs : compareRowReasons c (dk.contains (normalizeKey row c.left.keyColumns))
      row cand.row = []
  · simp [processLeftRow, hkey, hget, hlen, hfind, hrs]
  · simp [processLeftRow, hkey, hget, hlen, hfind, hrs]

/-! ### C6: the tolerance boundary is strict -/

/-- C6: with both amount columns configured and both values parsed, an
amount-difference reason is produced exactly when the absolute difference
strictly exceeds the tolerance; equality with the tolerance produces
none. -/
theorem claim_C6_strict_tolerance (c : ReconcileConfig) (lrow rrow : CsvRow)
    (lc rc : String) (la ra : ℚ)
    (h1 : c.left.amountColumn = some lc) (h2 : lc ≠ "")
    (h3 : c.right.amountColumn = some rc) (h4 : rc ≠ "")
    (h5 : parseAmount (getField lrow lc) = some la)
    (h6 : parseAmount (getField rrow rc) = some ra) :
    amountReasons c lrow rrow ≠ [] ↔ |la - ra| > c.amountTolerance := by
  simp only [amountReasons, h1, h3, h5, h6, if_pos (And.intro h2 h4)]
  by_cases hd : |la - ra| > c.amountTolerance
  · simp [hd]
  · simp [hd]

/-- Witness for C6: amounts 10 and 11 under tolerance 1, a difference
exactly at the tolerance, produce no amount reason. -/
theorem claim_C6_strict_tolerance_witness :
    amountReasons amtConfig [("amt", "10")] [("amt", "11")] ≠ [] ↔
      |(10 : ℚ) - 11| > amtConfig.amountTolerance :=
  claim_C6_strict_tolerance amtConfig [("amt", "10")] [("amt", "11")] "amt" "amt" 10 11
    rfl (by decide) rfl (by decide) (by decide) (by decide)

/-! ### C9: a consumed duplicate key forces a mismatch -/

/-- C9: when a left row consumes a bucket entry whose key is flagged as a
duplicate right key, the informational duplicate reason makes the reason
list non-empty, so the status is mismatched and never matched. -/
theorem claim_C9_dup_forces_mismatch (c : ReconcileConfig) (dupKeys : List String)
    (st : ScanState) (row : CsvRow) (bucket : List BucketItem) (cand : BucketItem)
    (hkey : normalizeKey row c.left.keyColumns ≠ "")
    (hget : bucketsGet st.buckets (normalizeKey row c.left.keyColumns) = some bucket)
    (hfind : bucket.find? (fun b => !b.used) = some cand)
    (hdup : dupKeys.contains (normalizeKey row c.left.keyColumns) = true) :
    ∃ rs, rs ≠ [] ∧
      (processLeftRow c dupKeys st row).results =
        st.results ++
          [{ status := .mismatched, key := normalizeKey row c.left.keyColumns,
             leftRow := some row, rightRow := some cand.row, reasons := rs }] := by
  have hrs : compareRowReasons c (dupKeys.contains (normalizeKey row c.left.keyColumns))
      row cand.row =
      "Duplicate key in right dataset (multiple rows)" ::
        (amountReasons c row cand.row ++ dateReasons c row cand.row) := by
    rw [compareRowReasons, hdup]
    simp
  have hne : compareRowReasons c (dupKeys.contains (normalizeKey row c.left.keyColumns))
      row cand.row ≠ [] := by
    rw [hrs]
    simp
  have h := processLeftRow_consume c dupKeys st row bucket cand hkey hget hfind
  rw [if_neg hne] at h
  exact ⟨_, hne, by rw [h]⟩

/-- Witness for C9 at a concrete state with a two-entry bucket. -/
theorem claim_C9_dup_forces_mismatch_witness :
    ∃ rs, rs ≠ [] ∧
      (processLeftRow keyOnlyConfig ["a"]
          ⟨[("a", [⟨[("k", "a")], false⟩, ⟨[("k", "a2")], false⟩])], [], 0, 0, 0, 0⟩
          [("k", "a")]).results =
        [] ++
          [{ status := .mismatched, key := normalizeKey [("k", "a")] keyOnlyConfig.left.keyColumns,
             leftRow := some [("k", "a")],
             rightRow := some (BucketItem.mk [("k", "a")] false).row, reasons := rs }] :=
  claim_C9_dup_forces_mismatch keyOnlyConfig ["a"]
    ⟨[("a", [⟨[("k", "a")], false⟩, ⟨[("k", "a2")], false⟩])], [], 0, 0, 0, 0⟩
    [("k", "a")] [⟨[("k", "a")], false⟩, ⟨[("k", "a2")], false⟩] ⟨[("k", "a")], false⟩
    (by decide) (by decide) (by decide) (by decide)

/-! ### C7: the matcher consumes the first unconsumed entry -/

/-- `find?` on the unconsumed predicate returns the entry at the least
index whose `used` flag is false. -/
theorem find?_first_unused :
    ∀ (items : List BucketItem) (i : Nat) (cand : BucketItem),
      items.get? i = some cand → cand.used = false →
      (∀ j, j < i → ∀ it, items.get? j = some it → it.used = true) →
      items.find? (fun b => !b.used) = some cand := by
  intro items
  induction items with
  | nil =>
      intro i cand h
      simp at h
  | cons it rest ih =>
      intro i cand hget hc hprev
      cases i with
      | zero =>
          simp at hget
          subst hget
          simp [List.find?_cons, hc]
      | succ i =>
          have h0 : it.used = true := hprev 0 (Nat.succ_pos i) it rfl
          simp only [List.find?_cons, h0]
          simpa using ih i cand hget hc
            (fun j hj it' hg => hprev (j + 1) (Nat.succ_lt_succ hj) it' hg)

/-- Marking the first unconsumed entry sets exactly the entry found by
`find?`. -/
theorem markFirstUnused_set :
    ∀ (items : List BucketItem) (i : Nat) (cand : BucketItem),
      items.get? i = some cand → cand.used = false →
      (∀ j, j < i → ∀ it, items.get? j = some it → it.used = true) →
      markFirstUnused items = items.set i { cand with used := true } := by
  intro items
  induction items with
  | nil =>
      intro i cand h
      simp at h
  | cons it rest ih =>
      intro i cand hget hc hprev
      cases i with
      | zero =>
          simp at hget
          subst hget
          simp [markFirstUnused, hc]
      | succ i =>
          have h0 : it.used = true := hprev 0 (Nat.succ_pos i) it rfl
          have hrest := ih i cand hget hc
            (fun j hj it' hg => hprev (j + 1) (Nat.succ_lt_succ hj) it' hg)
          simp [markFirstUnused, h0, hrest]

/-- The rows stored in the bucket of a key, in order. -/
def bucketRowsD (bs : Buckets) (k : String) : List CsvRow :=
  ((bucketsGet bs k).getD []).map (fun it => it.row)

/-- Inserting a row appends it to the rows of its own key and leaves every
other key unchanged. -/
theorem bucketRowsD_insert (bs : Buckets) (k' : String) (row : CsvRow) (k : String) :
    bucketRowsD (bucketsInsert bs k' row) k =
      bucketRowsD bs k ++ (if k' = k then [row] else []) := by
  induction bs with
  | nil =>
      by_cases h : k' = k
      · subst h
        simp [bucketRowsD, bucketsInsert, bucketsGet]
      · simp [bucketRowsD, bucketsInsert, bucketsGet, h]
  | cons p rest ih =>
      obtain ⟨k0, items0⟩ := p
      by_cases h0 : k0 = k'
      · subst h0
        by_cases hk : k0 = k
        · subst hk
          simp [bucketRowsD, bucketsInsert, bucketsGet]
        · simp [bucketRowsD, bucketsInsert, bucketsGet, hk,
            fun e => hk (Eq.symm e)]
      · by_cases hk : k0 = k
        · subst hk
          have hne : ¬ k' = k0 := fun e => h0 (Eq.symm e)
          simp [bucketRowsD, bucketsInsert, bucketsGet, h0, hne]
        · have hih := ih
          simp only [bucketRowsD] at hih ⊢
          simp [bucketsInsert, bucketsGet, h0, hk, hih]

/-- The bucket of a key collects exactly the rows with that (non-blank)
normalized key, in input order. -/
theorem bucketRowsD_foldl (cols : List String) (k : String) (hk : k ≠ "") :
    ∀ (rows : List CsvRow) (bs : Buckets),
      bucketRowsD
        (rows.foldl
          (fun bs row =>
            let key := normalizeKey row cols
            if key = "" then bs else bucketsInsert bs key row) bs) k =
      bucketRowsD bs k ++ rows.filter (fun x => decide (normalizeKey x cols = k)) := by
  intro rows
  induction rows with
  | nil => simp
  | cons row rows ih =>
      intro bs
      by_cases hb : normalizeKey row cols = ""
      · have hek : ¬ ("" = k) := fun e => hk (Eq.symm e)
        simp only [List.foldl_cons, hb, if_pos rfl, List.filter_cons]
        simp [hb, hek, ih bs]
      · simp only [List.foldl_cons, List.filter_cons]
        rw [if_neg hb]
        rw [ih (bucketsInsert bs (normalizeKey row cols) row)]
        rw [bucketRowsD_insert]
        by_cases hke : normalizeKey row cols = k
        · simp [hke]
        · simp [hke]

/-! ### C7: the matcher consumes the first unconsumed entry, and bucket
order is original right-side input order -/

/-- C7: when a left row's bucket has an unconsumed entry, the matcher
pairs the left row with the FIRST unconsumed entry in bucket order and
marks exactly that entry consumed; bucket order is the original
right-side input order, because a key's bucket lists precisely the
right rows with that normalized key in input order. -/
theorem claim_C7_first_unconsumed :
    (∀ (c : ReconcileConfig) (dupKeys : List String) (st : ScanState) (row : CsvRow)
        (bucket : List BucketItem) (i : Nat) (cand : BucketItem),
      normalizeKey row c.left.keyColumns ≠ "" →
      bucketsGet st.buckets (normalizeKey row c.left.keyColumns) = some bucket →
      bucket.get? i = some cand → cand.used = false →
      (∀ j, j < i → ∀ it, bucket.get? j = some it → it.used = true) →
      (processLeftRow c dupKeys st row).buckets =
          bucketsMark st.buckets (normalizeKey row c.left.keyColumns) ∧
        markFirstUnused bucket = bucket.set i { cand with used := true } ∧
        ∃ rs, (processLeftRow c dupKeys st row).results =
          st.results ++
            [{ status := if rs = [] then .matched else .mismatched,
               key := normalizeKey row c.left.keyColumns, leftRow := some row,
               rightRow := some cand.row, reasons := rs }]) ∧
    (∀ (rows : List CsvRow) (cols : List String) (k : String) (items : List BucketItem),
      k ≠ "" → bucketsGet (buildBuckets rows cols) k = some items →
      items.map (fun it => it.row) =
        rows.filter (fun x => decide (normalizeKey x cols = k))) := by
  constructor
  · intro c dupKeys st row bucket i cand hkey hget hgeti hcand hprev
    have hfind : bucket.find? (fun b => !b.used) = some cand :=
      find?_first_unused bucket i cand hgeti hcand hprev
    have hmark : markFirstUnused bucket = bucket.set i { cand with used := true } :=
      markFirstUnused_set bucket i cand hgeti hcand hprev
    have h := processLeftRow_consume c dupKeys st row bucket cand hkey hget hfind
    by_cases hrs : compareRowReasons c
        (dupKeys.contains (normalizeKey row c.left.keyColumns)) row cand.row = []
    · rw [if_pos hrs] at h
      refine ⟨by rw [h], hmark,
        ⟨compareRowReasons c (dupKeys.contains (normalizeKey row c.left.keyColumns))
          row cand.row, ?_⟩⟩
      rw [h, if_pos hrs, hrs]
    · rw [if_neg hrs] at h
      refine ⟨by rw [h], hmark,
        ⟨compareRowReasons c (dupKeys.contains (normalizeKey row c.left.keyColumns))
          row cand.row, ?_⟩⟩
      rw [h, if_neg hrs]
  · intro rows cols k items hk hget
    have h := bucketRowsD_foldl cols k hk rows []
    rw [buildBuckets] at hget
    have : bucketRowsD
        (rows.foldl
          (fun bs row =>
            let key := normalizeKey row cols
            if key = "" then bs else bucketsInsert bs key row) []) k =
        rows.filter (fun x => decide (normalizeKey x cols = k)) := by
      rw [h]
      simp [bucketRowsD, bucketsGet]
    rw [bucketRowsD, hget] at this
    simpa using this

/-- Witness for C7: a bucket whose first entry is already consumed; the
matcher takes the second entry. -/
theorem claim_C7_first_unconsumed_witness :
    (processLeftRow keyOnlyConfig []
        ⟨[("a", [⟨[("k", "a1")], true⟩, ⟨[("k", "a2")], false⟩])], [], 0, 0, 0, 0⟩
        [("k", "a")]).buckets =
      bucketsMark [("a", [⟨[("k", "a1")], true⟩, ⟨[("k", "a2")], false⟩])]
        (normalizeKey [("k", "a")] keyOnlyConfig.left.keyColumns) ∧
    markFirstUnused [⟨[("k", "a1")], true⟩, ⟨[("k", "a2")], false⟩] =
      [(⟨[("k", "a1")], true⟩ : BucketItem), ⟨[("k", "a2")], false⟩].set 1
        { BucketItem.mk [("k", "a2")] false with used := true } ∧
    ∃ rs, (processLeftRow keyOnlyConfig []
        ⟨[("a", [⟨[("k", "a1")], true⟩, ⟨[("k", "a2")], false⟩])], [], 0, 0, 0, 0⟩
        [("k", "a")]).results =
      [] ++
        [{ status := if rs = [] then .matched else .mismatched,
           key := normalizeKey [("k", "a")] keyOnlyConfig.left.keyColumns,
           leftRow := some [("k", "a")],
           rightRow := some (BucketItem.mk [("k", "a2")] false).row, reasons := rs }] :=
  claim_C7_first_unconsumed.1 keyOnlyConfig []
    ⟨[("a", [⟨[("k", "a1")], true⟩, ⟨[("k", "a2")], false⟩])], [], 0, 0, 0, 0⟩
    [("k", "a")] [⟨[("k", "a1")], true⟩, ⟨[("k", "a2")], false⟩] 1 ⟨[("k", "a2")], false⟩
    (by decide) (by decide) (by decide) rfl
    (by
      intro j hj it hg
      have hj0 : j = 0 := by omega
      subst hj0
      have h2 : ({ row := [("k", "a1")], used := true } : BucketItem) = it := by
        simpa using hg
      rw [← h2])

/-! ### Counting infrastructure over the bucket structure -/

/-- All bucket items of the index, in bucket order. -/
def allItems : Buckets → List BucketItem
  | [] => []
  | (_, items) :: rest => items ++ allItems rest

/-- Number of stored copies of a given right row. -/
def rowCountB (bs : Buckets) (r : CsvRow) : Nat :=
  (allItems bs).countP (fun it => decide (it.row = r))

/-- Number of consumed stored copies of a given right row. -/
def usedCountB (bs : Buckets) (r : CsvRow) : Nat :=
  (allItems bs).countP (fun it => it.used && decide (it.row = r))

/-- Number of unconsumed stored copies of a given right row. -/
def unusedCountB (bs : Buckets) (r : CsvRow) : Nat :=
  (allItems bs).countP (fun it => !it.used && decide (it.row = r))

/-- Splitting a count along a boolean attribute. -/
theorem countP_bool_split {α : Type} (l : List α) (b p : α → Bool) :
    l.countP (fun a => b a && p a) + l.countP (fun a => !b a && p a) = l.countP p := by
  induction l with
  | nil => simp
  | cons x xs ih =>
      by_cases hb : b x = true
      · by_cases hp : p x = true
        · simp [List.countP_cons, hb, hp]
          omega
        · simp [List.countP_cons, hb, hp]
          omega
      · by_cases hp : p x = true
        · simp [List.countP_cons, hb, hp]
          omega
        · simp [List.countP_cons, hb, hp]
          omega

/-- Marking preserves counts that only look at rows. -/
theorem markFirstUnused_countP_row (items : List BucketItem) (p : CsvRow → Bool) :
    (markFirstUnused items).countP (fun it => p it.row) =
      items.countP (fun it => p it.row) := by
  induction items with
  | nil => simp [markFirstUnused]
  | cons it rest ih =>
      by_cases hu : it.used = true
      · simp [markFirstUnused, hu, List.countP_cons, ih]
      · simp [markFirstUnused, hu, List.countP_cons]

/-- Marking a bucket holding an unconsumed candidate raises the used count
of exactly the candidate's row. -/
theorem markFirstUnused_used_countP (items : List BucketItem) (cand : BucketItem)
    (hfind : items.find? (fun b => !b.used) = some cand) (r : CsvRow) :
    (markFirstUnused items).countP (fun it => it.used && decide (it.row = r)) =
      items.countP (fun it => it.used && decide (it.row = r)) +
        (if cand.row = r then 1 else 0) := by
  induction items with
  | nil => simp at hfind
  | cons it rest ih =>
      cases hu : it.used with
      | true =>
          have hfind' : rest.find? (fun b => !b.used) = some cand := by
            simpa [List.find?_cons, hu] using hfind
          simp [markFirstUnused, hu, List.countP_cons, ih hfind']
          omega
      | false =>
          have hcand : it = cand := by
            have h2 := hfind
            simp [List.find?_cons, hu] at h2
            exact h2
          subst hcand
          by_cases hr : it.row = r
          · simp [markFirstUnused, hu, List.countP_cons, hr]
          · simp [markFirstUnused, hu, List.countP_cons, hr]

/-- The membership form of a successful `bucketsGet`. -/
theorem bucketsGet_mem (bs : Buckets) (key : String) (bucket : List BucketItem)
    (hget : bucketsGet bs key = some bucket) : (key, bucket) ∈ bs := by
  induction bs with
  | nil => simp [bucketsGet] at hget
  | cons p rest ih =>
      obtain ⟨k, items⟩ := p
      by_cases hk : k = key
      · subst hk
        rw [bucketsGet, if_pos rfl] at hget
        injection hget with h
        subst h
        exact List.mem_cons_self _ _
      · rw [bucketsGet, if_neg hk] at hget
        exact List.mem_cons_of_mem _ (ih hget)

/-- Marking changes no row-only count anywhere in the index. -/
theorem bucketsMark_countP_row (bs : Buckets) (key : String) (p : CsvRow → Bool) :
    (allItems (bucketsMark bs key)).countP (fun it => p it.row) =
      (allItems bs).countP (fun it => p it.row) := by
  induction bs with
  | nil => simp [bucketsMark]
  | cons q rest ih =>
      obtain ⟨k, items⟩ := q
      by_cases hk : k = key
      · simp [bucketsMark, hk, allItems, List.countP_append,
          markFirstUnused_countP_row]
      · simp [bucketsMark, hk, allItems, List.countP_append, ih]

/-- Marking the bucket of `key`, when that bucket has an unconsumed
candidate, raises the global used count of exactly the candidate's row. -/
theorem bucketsMark_used_countP (bs : Buckets) (key : String) (bucket : List BucketItem)
    (cand : BucketItem) (hget : bucketsGet bs key = some bucket)
    (hfind : bucket.find? (fun b => !b.used) = some cand) (r : CsvRow) :
    usedCountB (bucketsMark bs key) r =
      usedCountB bs r + (if cand.row = r then 1 else 0) := by
  induction bs with
  | nil => simp [bucketsGet] at hget
  | cons q rest ih =>
      obtain ⟨k, items⟩ := q
      by_cases hk : k = key
      · subst hk
        rw [bucketsGet, if_pos rfl] at hget
        injection hget with h
        subst h
        simp [usedCountB, bucketsMark, allItems, List.countP_append,
          markFirstUnused_used_countP items cand hfind r]
        omega
      · rw [bucketsGet, if_neg hk] at hget
        have := ih hget
        simp [usedCountB, bucketsMark, hk, allItems, List.countP_append] at this ⊢
        omega

/-- Inserting a fresh (unconsumed) item adds one copy of its row. -/
theorem bucketsInsert_countP (bs : Buckets) (k : String) (row : CsvRow)
    (p : BucketItem → Bool) :
    (allItems (bucketsInsert bs k row)).countP p =
      (allItems bs).countP p + (if p ⟨row, false⟩ then 1 else 0) := by
  induction bs with
  | nil => simp [bucketsInsert, allItems, List.countP_cons]
  | cons q rest ih =>
      obtain ⟨k0, items0⟩ := q
      by_cases hk : k0 = k
      · simp [bucketsInsert, hk, allItems, List.countP_append, List.countP_cons]
        omega
      · simp [bucketsInsert, hk, allItems, List.countP_append, ih]
        omega

/-- Generic item count after indexing a row list into given buckets. -/
theorem buildBuckets_foldl_countP (cols : List String) (p : BucketItem → Bool) :
    ∀ (rows : List CsvRow) (bs : Buckets),
      (allItems
        (rows.foldl
          (fun bs row =>
            let key := normalizeKey row cols
            if key = "" then bs else bucketsInsert bs key row) bs)).countP p =
      (allItems bs).countP p +
        rows.countP (fun x => !decide (normalizeKey x cols = "") && p ⟨x, false⟩) := by
  intro rows
  induction rows with
  | nil => simp
  | cons row rows ih =>
      intro bs
      by_cases hb : normalizeKey row cols = ""
      · simp only [List.foldl_cons, hb, if_pos rfl, List.countP_cons]
        simp [hb, ih bs]
      · simp only [List.foldl_cons, List.countP_cons]
        rw [if_neg hb]
        rw [ih (bucketsInsert bs (normalizeKey row cols) row)]
        rw [bucketsInsert_countP]
        simp [hb]
        omega

/-- The index stores one copy of each non-blank-key right row. -/
theorem rowCountB_build (rows : List CsvRow) (cols : List String) (r : CsvRow) :
    rowCountB (buildBuckets rows cols) r =
      rows.countP (fun x => !decide (normalizeKey x cols = "") && decide (x = r)) := by
  rw [rowCountB, buildBuckets, buildBuckets_foldl_countP]
  simp [allItems]

/-- All items start unconsumed. -/
theorem usedCountB_build (rows : List CsvRow) (cols : List String) (r : CsvRow) :
    usedCountB (buildBuckets rows cols) r = 0 := by
  rw [usedCountB, buildBuckets, buildBuckets_foldl_countP]
  simp [allItems]

/-- Exhaustive case analysis of one left-scan step. -/
theorem processLeftRow_cases (c : ReconcileConfig) (dk : List String) (st : ScanState)
    (row : CsvRow) :
    (normalizeKey row c.left.keyColumns = "" ∧ processLeftRow c dk st row = st) ∨
    (normalizeKey row c.left.keyColumns ≠ "" ∧
      processLeftRow c dk st row =
        { st with
          missingInRight := st.missingInRight + 1,
          results := st.results ++
            [{ status := .missing_in_right, key := normalizeKey row c.left.keyColumns,
               leftRow := some row, rightRow := none,
               reasons := ["No matching key in right dataset"] }] }) ∨
    (normalizeKey row c.left.keyColumns ≠ "" ∧
      ∃ bucket, bucketsGet st.buckets (normalizeKey row c.left.keyColumns) = some bucket ∧
        bucket ≠ [] ∧ bucket.find? (fun b => !b.used) = none ∧
        processLeftRow c dk st row =
          { st with
            duplicateKey := st.duplicateKey + 1,
            results := st.results ++
              [{ status := .duplicate_key, key := normalizeKey row c.left.keyColumns,
                 leftRow := some row, rightRow := some (bucket.headD ⟨[], false⟩).row,
                 reasons := ["Multiple rows share this key in the right dataset"] }] }) ∨
    (normalizeKey row c.left.keyColumns ≠ "" ∧
      ∃ bucket cand,
        bucketsGet st.buckets (normalizeKey row c.left.keyColumns) = some bucket ∧
        bucket.find? (fun b => !b.used) = some cand ∧
        processLeftRow c dk st row =
          (if compareRowReasons c (dk.contains (normalizeKey row c.left.keyColumns))
                row cand.row = [] then
            { st with
              buckets := bucketsMark st.buckets (normalizeKey row c.left.keyColumns),
              matched := st.matched + 1,
              results := st.results ++
                [{ status := .matched, key := normalizeKey row c.left.keyColumns,
                   leftRow := some row, rightRow := some cand.row, reasons := [] }] }
          else
            { st with
              buckets := bucketsMark st.buckets (normalizeKey row c.left.keyColumns),
              mismatched := st.mismatched + 1,
              results := st.results ++
                [{ status := .mismatched, key := normalizeKey row c.left.keyColumns,
                   leftRow := some row, rightRow := some cand.row,
                   reasons := compareRowReasons c
                     (dk.contains (normalizeKey row c.left.keyColumns)) row cand.row }] })) := by
  by_cases hb : normalizeKey row c.left.keyColumns = ""
  · exact Or.inl ⟨hb, processLeftRow_blank c dk st row hb⟩
  · cases hget : bucketsGet st.buckets (normalizeKey row c.left.keyColumns) with
    | none =>
        exact Or.inr (Or.inl ⟨hb, processLeftRow_missing c dk st row hb (Or.inl hget)⟩)
    | some bucket =>
        cases hfind : bucket.find? (fun b => !b.used) with
        | none =>
            by_cases hbe : bucket = []
            · subst hbe
              exact Or.inr (Or.inl ⟨hb, processLeftRow_missing c dk st row hb (Or.inr hget)⟩)
            · exact Or.inr (Or.inr (Or.inl ⟨hb, bucket, rfl, hbe, hfind,
                processLeftRow_exhausted c dk st row bucket hb hget hbe hfind⟩))
        | some cand =>
            exact Or.inr (Or.inr (Or.inr ⟨hb, bucket, cand, rfl, hfind,
              processLeftRow_consume c dk st row bucket cand hb hget hfind⟩))

/-- The predicate "this result row carries this left row". -/
def leftResP (r : CsvRow) (res : ReconcileRowResult) : Bool :=
  decide (res.leftRow = some r)

/-- The predicate "this result row carries this right row as its genuine
partner", excluding the read-only display reference of a left-bearing
duplicate-key result. -/
def realRightP (r : CsvRow) (res : ReconcileRowResult) : Bool :=
  decide (res.rightRow = some r) &&
    !(decide (res.status = MatchStatus.duplicate_key) && res.leftRow.isSome)

/-- The predicate "this is a left-bearing duplicate-key result". -/
def dupLeftP (res : ReconcileRowResult) : Bool :=
  decide (res.status = MatchStatus.duplicate_key) && res.leftRow.isSome

/-- The predicate "this row has a non-blank normalized key". -/
def nonBlankP (cols : List String) (x : CsvRow) : Bool :=
  !decide (normalizeKey x cols = "")

/-- The left-scan loop invariant: per-row result counts for both sides,
conservation of stored rows, and the counter identity. -/
def MatchInv (c : ReconcileConfig) (B0 : Buckets) (st : ScanState)
    (acc : List CsvRow) : Prop :=
  (∀ r : CsvRow, st.results.countP (leftResP r) =
      acc.countP (fun x => nonBlankP c.left.keyColumns x && decide (x = r))) ∧
  (∀ r : CsvRow, st.results.countP (realRightP r) = usedCountB st.buckets r) ∧
  (∀ r : CsvRow, rowCountB st.buckets r = rowCountB B0 r) ∧
  (st.matched + st.mismatched + st.missingInRight + st.results.countP dupLeftP =
    acc.countP (nonBlankP c.left.keyColumns))

/-- One left-scan step preserves the invariant. -/
theorem MatchInv_step (c : ReconcileConfig) (dk : List String) (B0 : Buckets)
    (st : ScanState) (acc : List CsvRow) (row : CsvRow)
    (h : MatchInv c B0 st acc) :
    MatchInv c B0 (processLeftRow c dk st row) (acc ++ [row]) := by
  obtain ⟨h1, h2, h3, h4⟩ := h
  rcases processLeftRow_cases c dk st row with
    ⟨hb, hst⟩ | ⟨hb, hst⟩ | ⟨hb, bucket, hget, hbe, hfind, hst⟩ |
    ⟨hb, bucket, cand, hget, hfind, hst⟩
  · rw [hst]
    refine ⟨?_, h2, h3, ?_⟩
    · intro r
      simp [List.countP_append, List.countP_cons, nonBlankP, hb, h1 r]
    · simp [List.countP_append, List.countP_cons, nonBlankP, hb, h4]
  · rw [hst]
    refine ⟨?_, ?_, h3, ?_⟩
    · intro r
      simp [List.countP_append, List.countP_cons, leftResP, nonBlankP, hb, h1 r]
    · intro r
      simp [List.countP_append, List.countP_cons, realRightP, h2 r]
    · simp [List.countP_append, List.countP_cons, dupLeftP, nonBlankP, hb]
      omega
  · rw [hst]
    refine ⟨?_, ?_, h3, ?_⟩
    · intro r
      simp [List.countP_append, List.countP_cons, leftResP, nonBlankP, hb, h1 r]
    · intro r
      simp [List.countP_append, List.countP_cons, realRightP, h2 r]
    · simp [List.countP_append, List.countP_cons, dupLeftP, nonBlankP, hb]
      omega
  · have hused := bucketsMark_used_countP st.buckets
      (normalizeKey row c.left.keyColumns) bucket cand hget hfind
    have hrow : ∀ r : CsvRow,
        rowCountB (bucketsMark st.buckets (normalizeKey row c.left.keyColumns)) r =
          rowCountB st.buckets r := by
      intro r
      exact bucketsMark_countP_row st.buckets (normalizeKey row c.left.keyColumns)
        (fun x => decide (x = r))
    by_cases hrs : compareRowReasons c
        (dk.contains (normalizeKey row c.left.keyColumns)) row cand.row = []
    · rw [if_pos hrs] at hst
      rw [hst]
      refine ⟨?_, ?_, ?_, ?_⟩
      · intro r
        simp [List.countP_append, List.countP_cons, leftResP, nonBlankP, hb, h1 r]
      · intro r
        simp only [List.countP_append, List.countP_cons]
        rw [hused r]
        simp [realRightP, h2 r]
      · intro r
        simp only []
        rw [hrow r]
        exact h3 r
      · simp [List.countP_append, List.countP_cons, dupLeftP, nonBlankP, hb]
        omega
    · rw [if_neg hrs] at hst
      rw [hst]
      refine ⟨?_, ?_, ?_, ?_⟩
      · intro r
        simp [List.countP_append, List.countP_cons, leftResP, nonBlankP, hb, h1 r]
      · intro r
        simp only [List.countP_append, List.countP_cons]
        rw [hused r]
        simp [realRightP, h2 r]
      · intro r
        simp only []
        rw [hrow r]
        exact h3 r
      · simp [List.countP_append, List.countP_cons, dupLeftP, nonBlankP, hb]
        omega

/-- The invariant carries through the whole left scan. -/
theorem MatchInv_foldl (c : ReconcileConfig) (dk : List String) (B0 : Buckets) :
    ∀ (rows : List CsvRow) (st : ScanState) (acc : List CsvRow),
      MatchInv c B0 st acc →
      MatchInv c B0 (rows.foldl (processLeftRow c dk) st) (acc ++ rows) := by
  intro rows
  induction rows with
  | nil =>
      intro st acc h
      simpa using h
  | cons row rows ih =>
      intro st acc h
      have h2 := MatchInv_step c dk B0 st acc row h
      have h3 := ih (processLeftRow c dk st row) (acc ++ [row]) h2
      simpa using h3

/-! ### Membership invariants: bucket keys and per-result properties -/

/-- Every bucket entry has a non-blank key, and every stored row
normalizes (with the right-side key columns) to its bucket's key. -/
def BucketsInv (rcols : List String) (bs : Buckets) : Prop :=
  ∀ p ∈ bs, p.1 ≠ "" ∧ ∀ it ∈ p.2, normalizeKey it.row rcols = p.1

/-- Insertion preserves the bucket invariant. -/
theorem bucketsInsert_inv (rcols : List String) (bs : Buckets) (k : String) (row : CsvRow)
    (h : BucketsInv rcols bs) (hk : k ≠ "") (hrow : normalizeKey row rcols = k) :
    BucketsInv rcols (bucketsInsert bs k row) := by
  induction bs with
  | nil =>
      intro p hp
      simp [bucketsInsert] at hp
      subst hp
      refine ⟨hk, ?_⟩
      intro it hit
      simp at hit
      subst hit
      exact hrow
  | cons q rest ih =>
      obtain ⟨k0, items0⟩ := q
      have hq := h (k0, items0) (List.mem_cons_self _ _)
      have hrest : BucketsInv rcols rest := fun p hp => h p (List.mem_cons_of_mem _ hp)
      by_cases hk0 : k0 = k
      · subst hk0
        intro p hp
        rw [bucketsInsert, if_pos rfl] at hp
        rcases List.mem_cons.mp hp with hp | hp
        · subst hp
          refine ⟨hq.1, ?_⟩
          intro it hit
          rcases List.mem_append.mp hit with hit | hit
          · exact hq.2 it hit
          · simp at hit
            subst hit
            exact hrow
        · exact hrest p hp
      · intro p hp
        rw [bucketsInsert, if_neg hk0] at hp
        rcases List.mem_cons.mp hp with hp | hp
        · subst hp
          exact hq
        · exact ih hrest p hp

/-- Generic preservation along a left fold. -/
theorem foldl_preserve {σ α : Type} (step : σ → α → σ) (P : σ → Prop)
    (hstep : ∀ st row, P st → P (step st row)) :
    ∀ (rows : List α) (st : σ), P st → P (rows.foldl step st) := by
  intro rows
  induction rows with
  | nil => intro st h; simpa using h
  | cons row rows ih => intro st h; exact ih (step st row) (hstep st row h)

/-- The index built from the right rows satisfies the bucket invariant. -/
theorem buildBuckets_inv (rows : List CsvRow) (rcols : List String) :
    BucketsInv rcols (buildBuckets rows rcols) := by
  rw [buildBuckets]
  refine foldl_preserve _ (BucketsInv rcols) ?_ rows [] (by intro p hp; simp at hp)
  intro bs row h
  by_cases hb : normalizeKey row rcols = ""
  · simpa [hb] using h
  · simpa [hb] using bucketsInsert_inv rcols bs (normalizeKey row rcols) row h hb rfl

/-- Every row in a marked bucket was already stored before marking. -/
theorem markFirstUnused_mem_row (items : List BucketItem) (it : BucketItem)
    (h : it ∈ markFirstUnused items) : ∃ it0 ∈ items, it.row = it0.row := by
  induction items with
  | nil => simp [markFirstUnused] at h
  | cons hd rest ih =>
      by_cases hu : hd.used = true
      · rw [markFirstUnused, if_pos hu] at h
        rcases List.mem_cons.mp h with h | h
        · exact ⟨hd, List.mem_cons_self _ _, by rw [h]⟩
        · obtain ⟨it0, hit0, he⟩ := ih h
          exact ⟨it0, List.mem_cons_of_mem _ hit0, he⟩
      · rw [markFirstUnused, if_neg hu] at h
        rcases List.mem_cons.mp h with h | h
        · exact ⟨hd, List.mem_cons_self _ _, by rw [h]⟩
        · exact ⟨it, List.mem_cons_of_mem _ h, rfl⟩

/-- Marking preserves the bucket invariant. -/
theorem bucketsMark_inv (rcols : List String) (bs : Buckets) (key : String)
    (h : BucketsInv rcols bs) : BucketsInv rcols (bucketsMark bs key) := by
  induction bs with
  | nil => simpa [bucketsMark] using h
  | cons q rest ih =>
      obtain ⟨k0, items0⟩ := q
      have hq := h (k0, items0) (List.mem_cons_self _ _)
      have hrest : BucketsInv rcols rest := fun p hp => h p (List.mem_cons_of_mem _ hp)
      by_cases hk : k0 = key
      · intro p hp
        rw [bucketsMark, if_pos hk] at hp
        rcases List.mem_cons.mp hp with hp | hp
        · subst hp
          refine ⟨hq.1, ?_⟩
          intro it hit
          obtain ⟨it0, hit0, he⟩ := markFirstUnused_mem_row items0 it hit
          rw [he]
          exact hq.2 it0 hit0
        · exact hrest p hp
      · intro p hp
        rw [bucketsMark, if_neg hk] at hp
        rcases List.mem_cons.mp hp with hp | hp
        · subst hp
          exact hq
        · exact ih hrest p hp

/-- The per-result well-formedness properties: carried rows have non-blank
keys on their own side, and the status is consistent with which side is
present. -/
def PresOK (c : ReconcileConfig) (res : ReconcileRowResult) : Prop :=
  (∀ lr, res.leftRow = some lr → normalizeKey lr c.left.keyColumns ≠ "") ∧
  (∀ rr, res.rightRow = some rr → normalizeKey rr c.right.keyColumns ≠ "") ∧
  (res.leftRow.isSome = true → res.status ≠ MatchStatus.missing_in_left) ∧
  (res.rightRow.isSome = true → res.status ≠ MatchStatus.missing_in_right)

/-- A nonempty list's `headD` is a member. -/
theorem headD_mem {α : Type} (l : List α) (d : α) (h : l ≠ []) : l.headD d ∈ l := by
  cases l with
  | nil => exact absurd rfl h
  | cons a rest => simp

/-- One left-scan step preserves the bucket invariant and the per-result
properties. -/
theorem ResInv_step (c : ReconcileConfig) (dk : List String) (st : ScanState) (row : CsvRow)
    (hBI : BucketsInv c.right.keyColumns st.buckets)
    (hres : ∀ res ∈ st.results, PresOK c res) :
    BucketsInv c.right.keyColumns (processLeftRow c dk st row).buckets ∧
    ∀ res ∈ (processLeftRow c dk st row).results, PresOK c res := by
  rcases processLeftRow_cases c dk st row with
    ⟨hb, hst⟩ | ⟨hb, hst⟩ | ⟨hb, bucket, hget, hbe, hfind, hst⟩ |
    ⟨hb, bucket, cand, hget, hfind, hst⟩
  · rw [hst]
    exact ⟨hBI, hres⟩
  · rw [hst]
    refine ⟨hBI, ?_⟩
    intro res hmem
    rcases List.mem_append.mp hmem with hmem | hmem
    · exact hres res hmem
    · have hs := List.mem_singleton.mp hmem
      subst hs
      refine ⟨?_, ?_, ?_, ?_⟩
      · intro lr he
        injection he with he
        rw [← he]
        exact hb
      · intro rr he
        simp at he
      · intro _
        simp
      · intro hx
        simp at hx
  · have hmemb := bucketsGet_mem st.buckets (normalizeKey row c.left.keyColumns) bucket hget
    have hbk := hBI _ hmemb
    rw [hst]
    refine ⟨hBI, ?_⟩
    intro res hmem
    rcases List.mem_append.mp hmem with hmem | hmem
    · exact hres res hmem
    · have hs := List.mem_singleton.mp hmem
      subst hs
      refine ⟨?_, ?_, ?_, ?_⟩
      · intro lr he
        injection he with he
        rw [← he]
        exact hb
      · intro rr he
        injection he with he
        rw [← he]
        rw [hbk.2 _ (headD_mem bucket ⟨[], false⟩ hbe)]
        exact hbk.1
      · intro _
        simp
      · intro _
        simp
  · have hmemb := bucketsGet_mem st.buckets (normalizeKey row c.left.keyColumns) bucket hget
    have hbk := hBI _ hmemb
    have hcand : cand ∈ bucket := List.mem_of_find?_eq_some hfind
    have hBI2 : BucketsInv c.right.keyColumns
        (bucketsMark st.buckets (normalizeKey row c.left.keyColumns)) :=
      bucketsMark_inv _ _ _ hBI
    by_cases hrs : compareRowReasons c
        (dk.contains (normalizeKey row c.left.keyColumns)) row cand.row = []
    · rw [if_pos hrs] at hst
      rw [hst]
      refine ⟨hBI2, ?_⟩
      intro res hmem
      rcases List.mem_append.mp hmem with hmem | hmem
      · exact hres res hmem
      · have hs := List.mem_singleton.mp hmem
        subst hs
        refine ⟨?_, ?_, ?_, ?_⟩
        · intro lr he
          injection he with he
          rw [← he]
          exact hb
        · intro rr he
          injection he with he
          rw [← he]
          rw [hbk.2 _ hcand]
          exact hbk.1
        · intro _
          simp
        · intro _
          simp
    · rw [if_neg hrs] at hst
      rw [hst]
      refine ⟨hBI2, ?_⟩
      intro res hmem
      rcases List.mem_append.mp hmem with hmem | hmem
      · exact hres res hmem
      · have hs := List.mem_singleton.mp hmem
        subst hs
        refine ⟨?_, ?_, ?_, ?_⟩
        · intro lr he
          injection he with he
          rw [← he]
          exact hb
        · intro rr he
          injection he with he
          rw [← he]
          rw [hbk.2 _ hcand]
          exact hbk.1
        · intro _
          simp
        · intro _
          simp

/-- The bucket invariant and the per-result properties carry through the
whole left scan. -/
theorem ResInv_foldl (c : ReconcileConfig) (dk : List String) :
    ∀ (rows : List CsvRow) (st : ScanState),
      BucketsInv c.right.keyColumns st.buckets →
      (∀ res ∈ st.results, PresOK c res) →
      BucketsInv c.right.keyColumns (rows.foldl (processLeftRow c dk) st).buckets ∧
      ∀ res ∈ (rows.foldl (processLeftRow c dk) st).results, PresOK c res := by
  intro rows
  induction rows with
  | nil => intro st h1 h2; exact ⟨h1, h2⟩
  | cons row rows ih =>
      intro st h1 h2
      obtain ⟨h1', h2'⟩ := ResInv_step c dk st row h1 h2
      exact ih (processLeftRow c dk st row) h1' h2'

/-! ### The residual scan, characterized -/

/-- The result rows produced by the residual scan for one bucket: one row
per still-unconsumed item, duplicate-key when the key was flagged. -/
def resExtra (isDup : Bool) (key : String) : List BucketItem → List ReconcileRowResult
  | [] => []
  | it :: rest =>
      if it.used then resExtra isDup key rest
      else
        (if isDup then
          { status := .duplicate_key, key := key, leftRow := none,
            rightRow := some it.row,
            reasons := ["Duplicate key in right dataset (multiple rows)"] }
        else
          { status := .missing_in_left, key := key, leftRow := none,
            rightRow := some it.row,
            reasons := ["No matching key in left dataset"] }) :: resExtra isDup key rest

/-- The result rows produced by the whole residual scan. -/
def resExtraAll (dk : List String) : Buckets → List ReconcileRowResult
  | [] => []
  | (k, items) :: rest => resExtra (dk.contains k) k items ++ resExtraAll dk rest

/-- The inner residual loop appends exactly `resExtra`. -/
theorem residualItems_fst (d : Bool) (k : String) :
    ∀ (items : List BucketItem) (acc : List ReconcileRowResult × Nat × Nat),
      (residualItems d k items acc).1 = acc.1 ++ resExtra d k items := by
  intro items
  induction items with
  | nil => intro acc; simp [residualItems, resExtra]
  | cons it rest ih =>
      intro acc
      rw [residualItems, resExtra]
      cases hu : it.used with
      | true => simp [ih]
      | false =>
          cases d with
          | true => simp [ih]
          | false => simp [ih]

/-- The residual scan appends exactly `resExtraAll`. -/
theorem residualAll_fst (dk : List String) :
    ∀ (bs : Buckets) (acc : List ReconcileRowResult × Nat × Nat),
      (residualAll dk bs acc).1 = acc.1 ++ resExtraAll dk bs := by
  intro bs
  induction bs with
  | nil => intro acc; simp [residualAll, resExtraAll]
  | cons p rest ih =>
      obtain ⟨k, items⟩ := p
      intro acc
      rw [residualAll, resExtraAll, ih, residualItems_fst]
      simp

/-- Residual result rows carry no left row, carry the row of an
unconsumed stored item, and are duplicate-key or missing-in-left. -/
theorem resExtra_mem (d : Bool) (k : String) (items : List BucketItem)
    (res : ReconcileRowResult) (h : res ∈ resExtra d k items) :
    res.leftRow = none ∧
    (res.status = MatchStatus.duplicate_key ∨ res.status = MatchStatus.missing_in_left) ∧
    ∃ it ∈ items, it.used = false ∧ res.rightRow = some it.row := by
  induction items with
  | nil => simp [resExtra] at h
  | cons it rest ih =>
      rw [resExtra] at h
      cases hu : it.used with
      | true =>
          rw [hu, if_pos rfl] at h
          obtain ⟨h1, h2, it0, hit0, h3⟩ := ih h
          exact ⟨h1, h2, it0, List.mem_cons_of_mem _ hit0, h3⟩
      | false =>
          rw [hu, if_neg (by simp)] at h
          rcases List.mem_cons.mp h with h | h
          · subst h
            cases d with
            | true => exact ⟨rfl, Or.inl rfl, it, List.mem_cons_self _ _, hu, rfl⟩
            | false => exact ⟨rfl, Or.inr rfl, it, List.mem_cons_self _ _, hu, rfl⟩
          · obtain ⟨h1, h2, it0, hit0, h3⟩ := ih h
            exact ⟨h1, h2, it0, List.mem_cons_of_mem _ hit0, h3⟩

/-- Members of the whole residual output, with their source bucket. -/
theorem resExtraAll_mem (dk : List String) (bs : Buckets) (res : ReconcileRowResult)
    (h : res ∈ resExtraAll dk bs) :
    res.leftRow = none ∧
    (res.status = MatchStatus.duplicate_key ∨ res.status = MatchStatus.missing_in_left) ∧
    ∃ p ∈ bs, ∃ it ∈ p.2, it.used = false ∧ res.rightRow = some it.row := by
  induction bs with
  | nil => simp [resExtraAll] at h
  | cons p rest ih =>
      obtain ⟨k, items⟩ := p
      rw [resExtraAll] at h
      rcases List.mem_append.mp h with h | h
      · obtain ⟨h1, h2, it, hit, h3⟩ := resExtra_mem (dk.contains k) k items res h
        exact ⟨h1, h2, (k, items), List.mem_cons_self _ _, it, hit, h3⟩
      · obtain ⟨h1, h2, q, hq, hrest⟩ := ih h
        exact ⟨h1, h2, q, List.mem_cons_of_mem _ hq, hrest⟩

/-- The residual rows count the unconsumed copies of each right row. -/
theorem resExtra_countP_rr (d : Bool) (k : String) (items : List BucketItem) (r : CsvRow) :
    (resExtra d k items).countP (realRightP r) =
      items.countP (fun it => !it.used && decide (it.row = r)) := by
  induction items with
  | nil => simp [resExtra]
  | cons it rest ih =>
      rw [resExtra]
      cases hu : it.used with
      | true => simp [List.countP_cons, ih, hu]
      | false =>
          cases d with
          | true => simp [List.countP_cons, realRightP, ih, hu]
          | false => simp [List.countP_cons, realRightP, ih, hu]

/-- Residual rows never carry a left row, hence count zero for any
left-row predicate. -/
theorem resExtra_countP_left (d : Bool) (k : String) (items : List BucketItem) (r : CsvRow) :
    (resExtra d k items).countP (leftResP r) = 0 ∧
    (resExtra d k items).countP dupLeftP = 0 := by
  constructor
  · rw [List.countP_eq_zero]
    intro res hres
    have h := (resExtra_mem d k items res hres).1
    simp [leftResP, h]
  · rw [List.countP_eq_zero]
    intro res hres
    have h := (resExtra_mem d k items res hres).1
    simp [dupLeftP, h]

/-- Whole-scan versions of the residual counts. -/
theorem resExtraAll_countP (dk : List String) (bs : Buckets) (r : CsvRow) :
    (resExtraAll dk bs).countP (realRightP r) = unusedCountB bs r ∧
    (resExtraAll dk bs).countP (leftResP r) = 0 ∧
    (resExtraAll dk bs).countP dupLeftP = 0 := by
  induction bs with
  | nil => simp [resExtraAll, unusedCountB, allItems]
  | cons p rest ih =>
      obtain ⟨k, items⟩ := p
      rw [resExtraAll]
      refine ⟨?_, ?_, ?_⟩
      · rw [List.countP_append, resExtra_countP_rr, ih.1]
        simp [unusedCountB, allItems, List.countP_append]
      · rw [List.countP_append, (resExtra_countP_left (dk.contains k) k items r).1, ih.2.1]
      · rw [List.countP_append, (resExtra_countP_left (dk.contains k) k items r).2, ih.2.2]

/-! ### Assembling the whole reconciliation -/

/-- The duplicate-key set computed by `reconcileDatasets`. -/
def dupKeysOf (r : List CsvRow) (c : ReconcileConfig) : List String :=
  (buildBuckets r c.right.keyColumns).filterMap
    (fun p => if p.2.length > 1 then some p.1 else none)

/-- The state after the left scan of `reconcileDatasets`. -/
def scanOf (l r : List CsvRow) (c : ReconcileConfig) : ScanState :=
  l.foldl (processLeftRow c (dupKeysOf r c))
    { buckets := buildBuckets r c.right.keyColumns, results := [], matched := 0,
      mismatched := 0, missingInRight := 0, duplicateKey := 0 }

/-- The left-scan invariant holds of the scan state. -/
theorem scanOf_MatchInv (l r : List CsvRow) (c : ReconcileConfig) :
    MatchInv c (buildBuckets r c.right.keyColumns) (scanOf l r c) l := by
  have hinit : MatchInv c (buildBuckets r c.right.keyColumns)
      { buckets := buildBuckets r c.right.keyColumns, results := [], matched := 0,
        mismatched := 0, missingInRight := 0, duplicateKey := 0 } [] := by
    refine ⟨?_, ?_, ?_, ?_⟩
    · intro r'
      simp
    · intro r'
      simp [usedCountB_build]
    · intro r'
      rfl
    · simp
  have h := MatchInv_foldl c (dupKeysOf r c) (buildBuckets r c.right.keyColumns)
    l _ [] hinit
  simpa [scanOf] using h

/-- The bucket invariant and the per-result properties hold of the scan
state. -/
theorem scanOf_ResInv (l r : List CsvRow) (c : ReconcileConfig) :
    BucketsInv c.right.keyColumns (scanOf l r c).buckets ∧
    ∀ res ∈ (scanOf l r c).results, PresOK c res := by
  have h := ResInv_foldl c (dupKeysOf r c) l
    { buckets := buildBuckets r c.right.keyColumns, results := [], matched := 0,
      mismatched := 0, missingInRight := 0, duplicateKey := 0 }
    (buildBuckets_inv r c.right.keyColumns) (by intro res h; simp at h)
  simpa [scanOf] using h

/-- On valid configurations, the engine's output decomposes into the
left-scan results followed by the residual rows, with the summary fields
taken from the scan state. -/
theorem reconcileDatasets_rows (l r : List CsvRow) (c : ReconcileConfig)
    (hL : c.left.keyColumns ≠ []) (hR : c.right.keyColumns ≠ []) :
    ∃ out, reconcileDatasets l r c = .ok out ∧
      out.rows = (scanOf l r c).results ++
        resExtraAll (dupKeysOf r c) (scanOf l r c).buckets ∧
      out.summary.matched = (scanOf l r c).matched ∧
      out.summary.mismatched = (scanOf l r c).mismatched ∧
      out.summary.missingInRight = (scanOf l r c).missingInRight := by
  have h : ¬(c.left.keyColumns.length = 0 ∨ c.right.keyColumns.length = 0) := by
    simp [List.length_eq_zero, hL, hR]
  rw [reconcileDatasets, if_neg h]
  refine ⟨_, rfl, ?_, rfl, rfl, rfl⟩
  show (residualAll (dupKeysOf r c) (scanOf l r c).buckets
      ((scanOf l r c).results, 0, (scanOf l r c).duplicateKey)).1 =
    (scanOf l r c).results ++ resExtraAll (dupKeysOf r c) (scanOf l r c).buckets
  rw [residualAll_fst]

/-! ### C1: the summary identity, corrected for duplicate-key left rows -/

/-- C1 (amended): `matched + mismatched + missingInRight` plus the number
of duplicate-key result rows that carry a left row equals the number of
left rows with non-blank composite key.  (The claim as stated omits the
duplicate-key term and fails; see the counterexample.) -/
theorem claim_C1_summary_identity (l r : List CsvRow) (c : ReconcileConfig)
    (out : ReconcileResult)
    (hL : c.left.keyColumns ≠ []) (hR : c.right.keyColumns ≠ [])
    (hok : reconcileDatasets l r c = .ok out) :
    out.summary.matched + out.summary.mismatched + out.summary.missingInRight +
      out.rows.countP dupLeftP =
    l.countP (nonBlankP c.left.keyColumns) := by
  obtain ⟨out', heq, hrows, hm, hmm, hmir⟩ := reconcileDatasets_rows l r c hL hR
  rw [hok] at heq
  injection heq with heq
  subst heq
  have hinv := scanOf_MatchInv l r c
  rw [hrows, hm, hmm, hmir, List.countP_append,
    (resExtraAll_countP (dupKeysOf r c) (scanOf l r c).buckets []).2.2]
  have h4 := hinv.2.2.2
  omega

/-- Counterexample to C1 as stated: two identical-key left rows against
one right row give `matched = 1`, `mismatched = 0`, `missingInRight = 0`,
but two non-blank-key left rows (the second left row is reported as
`duplicate_key`). -/
theorem claim_C1_counterexample :
    ¬ ((summaryOf (reconcileDatasets [[("k", "a")], [("k", "a")]] [[("k", "a")]]
          keyOnlyConfig)).matched +
        (summaryOf (reconcileDatasets [[("k", "a")], [("k", "a")]] [[("k", "a")]]
          keyOnlyConfig)).mismatched +
        (summaryOf (reconcileDatasets [[("k", "a")], [("k", "a")]] [[("k", "a")]]
          keyOnlyConfig)).missingInRight =
      ([[("k", "a")], [("k", "a")]] : List CsvRow).countP
        (nonBlankP keyOnlyConfig.left.keyColumns)) := by
  decide

/-- Witness for C1 (amended) at the counterexample input. -/
theorem claim_C1_summary_identity_witness :
    (ReconcileResult.mk
        [{ status := .matched, key := "a", leftRow := some [("k", "a")],
           rightRow := some [("k", "a")], reasons := [] },
         { status := .duplicate_key, key := "a", leftRow := some [("k", "a")],
           rightRow := some [("k", "a")],
           reasons := ["Multiple rows share this key in the right dataset"] }]
        ⟨2, 1, 1, 0, 0, 0, 1⟩).summary.matched +
      (ReconcileResult.mk
        [{ status := .matched, key := "a", leftRow := some [("k", "a")],
           rightRow := some [("k", "a")], reasons := [] },
         { status := .duplicate_key, key := "a", leftRow := some [("k", "a")],
           rightRow := some [("k", "a")],
           reasons := ["Multiple rows share this key in the right dataset"] }]
        ⟨2, 1, 1, 0, 0, 0, 1⟩).summary.mismatched +
      (ReconcileResult.mk
        [{ status := .matched, key := "a", leftRow := some [("k", "a")],
           rightRow := some [("k", "a")], reasons := [] },
         { status := .duplicate_key, key := "a", leftRow := some [("k", "a")],
           rightRow := some [("k", "a")],
           reasons := ["Multiple rows share this key in the right dataset"] }]
        ⟨2, 1, 1, 0, 0, 0, 1⟩).summary.missingInRight +
      (ReconcileResult.mk
        [{ status := .matched, key := "a", leftRow := some [("k", "a")],
           rightRow := some [("k", "a")], reasons := [] },
         { status := .duplicate_key, key := "a", leftRow := some [("k", "a")],
           rightRow := some [("k", "a")],
           reasons := ["Multiple rows share this key in the right dataset"] }]
        ⟨2, 1, 1, 0, 0, 0, 1⟩).rows.countP dupLeftP =
    ([[("k", "a")], [("k", "a")]] : List CsvRow).countP
      (nonBlankP keyOnlyConfig.left.keyColumns) :=
  claim_C1_summary_identity [[("k", "a")], [("k", "a")]] [[("k", "a")]] keyOnlyConfig
    _ (by decide) (by decide) (by rfl)

/-! ### C2: partition of both sides, corrected on the right -/

/-- C2 (amended): each left row with non-blank key is the `leftRow` of
exactly one result row, and no such result row has status
missing-in-left; each right row with non-blank key is the genuine
`rightRow` of exactly one result row — counting matched/mismatched
consumptions and right-only residuals, but NOT the read-only display
reference carried by a left-bearing duplicate-key result — and no result
row carrying a right row has status missing-in-right.  (The claim as
stated counts the display references too and fails; see the
counterexample.) -/
theorem claim_C2_partition (l r : List CsvRow) (c : ReconcileConfig)
    (out : ReconcileResult) (row : CsvRow)
    (hL : c.left.keyColumns ≠ []) (hR : c.right.keyColumns ≠ [])
    (hok : reconcileDatasets l r c = .ok out) :
    (normalizeKey row c.left.keyColumns ≠ "" →
      out.rows.countP (leftResP row) = l.countP (fun x => decide (x = row))) ∧
    (normalizeKey row c.right.keyColumns ≠ "" →
      out.rows.countP (realRightP row) = r.countP (fun x => decide (x = row))) ∧
    (∀ res ∈ out.rows,
      (res.leftRow.isSome = true → res.status ≠ MatchStatus.missing_in_left) ∧
      (res.rightRow.isSome = true → res.status ≠ MatchStatus.missing_in_right)) := by
  obtain ⟨out', heq, hrows, hm, hmm, hmir⟩ := reconcileDatasets_rows l r c hL hR
  rw [hok] at heq
  injection heq with heq
  subst heq
  have hinv := scanOf_MatchInv l r c
  obtain ⟨hBI, hres⟩ := scanOf_ResInv l r c
  refine ⟨?_, ?_, ?_⟩
  · intro hk
    rw [hrows, List.countP_append,
      (resExtraAll_countP (dupKeysOf r c) (scanOf l r c).buckets row).2.1,
      hinv.1 row]
    have hfun : (fun x => nonBlankP c.left.keyColumns x && decide (x = row)) =
        fun x : CsvRow => decide (x = row) := by
      funext x
      by_cases hx : x = row
      · subst hx
        simp [nonBlankP, hk]
      · simp [hx]
    rw [hfun]
    omega
  · intro hk
    rw [hrows, List.countP_append,
      (resExtraAll_countP (dupKeysOf r c) (scanOf l r c).buckets row).1,
      hinv.2.1 row]
    have hsplit := countP_bool_split (allItems (scanOf l r c).buckets)
      (fun it => it.used) (fun it => decide (it.row = row))
    rw [usedCountB, unusedCountB, hsplit]
    have hrc : (allItems (scanOf l r c).buckets).countP
        (fun it => decide (it.row = row)) = rowCountB (scanOf l r c).buckets row := rfl
    rw [hrc, hinv.2.2.1 row, rowCountB_build]
    have hfun : (fun x => !decide (normalizeKey x c.right.keyColumns = "") &&
        decide (x = row)) = fun x : CsvRow => decide (x = row) := by
      funext x
      by_cases hx : x = row
      · subst hx
        simp [hk]
      · simp [hx]
    rw [hfun]
  · intro res hmem
    rw [hrows] at hmem
    rcases List.mem_append.mp hmem with hmem | hmem
    · exact ⟨(hres res hmem).2.2.1, (hres res hmem).2.2.2⟩
    · obtain ⟨h1, h2, _⟩ := resExtraAll_mem (dupKeysOf r c) (scanOf l r c).buckets res hmem
      constructor
      · intro hx
        rw [h1] at hx
        simp at hx
      · intro _
        rcases h2 with h2 | h2 <;> simp [h2]

/-- Counterexample to C2 as stated: with two identical-key left rows and
one right row, the single right row appears as the `rightRow` of two
result rows (the matched pair and the duplicate-key report), both of
whose statuses are in the claim's list. -/
theorem claim_C2_counterexample :
    (rowsOf (reconcileDatasets [[("k", "a")], [("k", "a")]] [[("k", "a")]]
        keyOnlyConfig)).countP
      (fun res => decide (res.rightRow = some [("k", "a")]) &&
        (decide (res.status = MatchStatus.matched) ||
          decide (res.status = MatchStatus.mismatched) ||
          decide (res.status = MatchStatus.missing_in_left) ||
          decide (res.status = MatchStatus.duplicate_key))) = 2 ∧
    normalizeKey [("k", "a")] keyOnlyConfig.right.keyColumns ≠ "" := by
  constructor
  · decide
  · decide

/-- Witness for C2 (amended): the left identity evaluated at the
counterexample input. -/
theorem claim_C2_partition_witness :
    (ReconcileResult.mk
        [{ status := .matched, key := "a", leftRow := some [("k", "a")],
           rightRow := some [("k", "a")], reasons := [] },
         { status := .duplicate_key, key := "a", leftRow := some [("k", "a")],
           rightRow := some [("k", "a")],
           reasons := ["Multiple rows share this key in the right dataset"] }]
        ⟨2, 1, 1, 0, 0, 0, 1⟩).rows.countP (realRightP [("k", "a")]) =
      ([[("k", "a")]] : List CsvRow).countP (fun x => decide (x = [("k", "a")])) :=
  (claim_C2_partition [[("k", "a")], [("k", "a")]] [[("k", "a")]] keyOnlyConfig
      _ [("k", "a")] (by decide) (by decide) (by rfl)).2.1 (by decide)

/-! ### C5: blank-key rows appear in no result row -/

/-- C5: every result row's carried left row has a non-blank left key and
every carried right row has a non-blank right key, so a row whose
composite key normalizes to the empty string appears in no result row of
any status. -/
theorem claim_C5_blank_excluded (l r : List CsvRow) (c : ReconcileConfig)
    (out : ReconcileResult)
    (hL : c.left.keyColumns ≠ []) (hR : c.right.keyColumns ≠ [])
    (hok : reconcileDatasets l r c = .ok out) :
    ∀ res ∈ out.rows,
      (∀ lr, res.leftRow = some lr → normalizeKey lr c.left.keyColumns ≠ "") ∧
      (∀ rr0, res.rightRow = some rr0 → normalizeKey rr0 c.right.keyColumns ≠ "") := by
  obtain ⟨out', heq, hrows, _, _, _⟩ := reconcileDatasets_rows l r c hL hR
  rw [hok] at heq
  injection heq with heq
  subst heq
  obtain ⟨hBI, hres⟩ := scanOf_ResInv l r c
  intro res hmem
  rw [hrows] at hmem
  rcases List.mem_append.mp hmem with hmem | hmem
  · exact ⟨(hres res hmem).1, (hres res hmem).2.1⟩
  · obtain ⟨h1, _, p, hp, it, hit, _, h3⟩ :=
      resExtraAll_mem (dupKeysOf r c) (scanOf l r c).buckets res hmem
    constructor
    · intro lr he
      rw [h1] at he
      simp at he
    · intro rr0 he
      rw [h3] at he
      injection he with he
      rw [← he]
      have hb := hBI p hp
      rw [hb.2 it hit]
      exact hb.1

/-- Witness for C5: the matched result row of a concrete run carries
non-blank keys on both sides. -/
theorem claim_C5_blank_excluded_witness :
    normalizeKey [("k", "a")] keyOnlyConfig.left.keyColumns ≠ "" :=
  (claim_C5_blank_excluded [[("k", "a")], [("k", "a")]] [[("k", "a")]] keyOnlyConfig
      (ReconcileResult.mk
        [{ status := .matched, key := "a", leftRow := some [("k", "a")],
           rightRow := some [("k", "a")], reasons := [] },
         { status := .duplicate_key, key := "a", leftRow := some [("k", "a")],
           rightRow := some [("k", "a")],
           reasons := ["Multiple rows share this key in the right dataset"] }]
        ⟨2, 1, 1, 0, 0, 0, 1⟩)
      (by decide) (by decide) (by rfl)
      { status := .matched, key := "a", leftRow := some [("k", "a")],
        rightRow := some [("k", "a")], reasons := [] }
      (by simp)).1 [("k", "a")] rfl

/-! ### C8: algebra of key-part normalization -/

/-- Lowercasing does not change whether a character is whitespace. -/
theorem toLower_isWhitespace (c : Char) :
    (Char.toLower c).isWhitespace = c.isWhitespace := by
  rw [Char.toLower]
  by_cases h : c.toNat ≥ 65 ∧ c.toNat ≤ 90
  · rw [if_pos h]
    obtain ⟨h65, h90⟩ := h
    have hws : c.isWhitespace = false := by
      have hsp : c ≠ ' ' := by
        intro he
        rw [he] at h65
        exact absurd h65 (by decide)
      have hta : c ≠ '\t' := by
        intro he
        rw [he] at h65
        exact absurd h65 (by decide)
      have hcr : c ≠ '\r' := by
        intro he
        rw [he] at h65
        exact absurd h65 (by decide)
      have hnl : c ≠ '\n' := by
        intro he
        rw [he] at h65
        exact absurd h65 (by decide)
      simp [Char.isWhitespace, hsp, hta, hcr, hnl]
    rw [hws]
    revert h65 h90
    generalize c.toNat = n
    intro h65 h90
    interval_cases n <;> decide
  · rw [if_neg h]

/-- Lowercasing is idempotent. -/
theorem toLower_toLower (c : Char) :
    Char.toLower (Char.toLower c) = Char.toLower c := by
  by_cases h : c.toNat ≥ 65 ∧ c.toNat ≤ 90
  · have hlow : Char.toLower c = Char.ofNat (c.toNat + 32) := by
      rw [Char.toLower, if_pos h]
    rw [hlow]
    obtain ⟨h65, h90⟩ := h
    revert h65 h90
    generalize c.toNat = n
    intro h65 h90
    interval_cases n <;> decide
  · have hlow : Char.toLower c = c := by
      rw [Char.toLower, if_neg h]
    rw [hlow]
    exact hlow

/-- Lowercasing commutes with dropping trailing whitespace. -/
theorem dropTrailWs_map_toLower (l : List Char) :
    dropTrailWs (l.map Char.toLower) = (dropTrailWs l).map Char.toLower := by
  induction l with
  | nil => simp [dropTrailWs]
  | cons c rest ih =>
      rw [List.map_cons, dropTrailWs, dropTrailWs, ih]
      have hie : ((dropTrailWs rest).map Char.toLower).isEmpty =
          (dropTrailWs rest).isEmpty := by
        cases hx : dropTrailWs rest <;> rfl
      have hcond : (((dropTrailWs rest).map Char.toLower).isEmpty &&
            (Char.toLower c).isWhitespace) =
          ((dropTrailWs rest).isEmpty && c.isWhitespace) := by
        rw [hie, toLower_isWhitespace]
      rw [hcond]
      by_cases h2 : ((dropTrailWs rest).isEmpty && c.isWhitespace) = true
      · rw [if_pos h2, if_pos h2]
        rfl
      · rw [if_neg h2, if_neg h2]
        rfl

/-- Lowercasing commutes with trimming. -/
theorem trimChars_map_toLower (l : List Char) :
    trimChars (l.map Char.toLower) = (trimChars l).map Char.toLower := by
  rw [trimChars, trimChars, List.dropWhile_map, ← dropTrailWs_map_toLower]
  have hfun : (Char.isWhitespace ∘ Char.toLower) = Char.isWhitespace := by
    funext c
    exact toLower_isWhitespace c
  rw [hfun]

/-- Lowercasing commutes with whitespace collapsing. -/
theorem collapseWsAux_map_toLower (l : List Char) :
    ∀ b, collapseWsAux b (l.map Char.toLower) = (collapseWsAux b l).map Char.toLower := by
  induction l with
  | nil => intro b; simp [collapseWsAux]
  | cons c rest ih =>
      intro b
      rw [List.map_cons, collapseWsAux, collapseWsAux]
      by_cases hw : c.isWhitespace = true
      · rw [if_pos (by rw [toLower_isWhitespace]; exact hw), if_pos hw]
        cases b with
        | true => simp [ih]
        | false => simp [ih, show Char.toLower ' ' = ' ' from by decide]
      · rw [if_neg (by rw [toLower_isWhitespace]; exact hw), if_neg hw]
        simp [ih]

/-- The canonical form underlying `normalizeKeyPart`: collapse after trim. -/
def canonF (l : List Char) : List Char := collapseWsAux false (trimChars l)

/-- Variant used while walking a string: collapse (word state) after
dropping only trailing whitespace. -/
def canonH (l : List Char) : List Char := collapseWsAux false (dropTrailWs l)

/-- Variant used while walking a string: collapse (whitespace state) after
dropping only trailing whitespace. -/
def canonK (l : List Char) : List Char := collapseWsAux true (dropTrailWs l)

/-- `normalizeKeyPart` is the canonical form of the lowercased text. -/
theorem normalizeKeyPart_eq_canonF (s : String) :
    normalizeKeyPart s = String.mk (canonF (s.data.map Char.toLower)) := by
  rw [normalizeKeyPart, canonF, trimChars_map_toLower, collapseWsAux_map_toLower]

/-- An all-whitespace list trims to nothing. -/
theorem dropTrailWs_eq_nil (l : List Char) :
    dropTrailWs l = [] ↔ l.all Char.isWhitespace = true := by
  induction l with
  | nil => simp [dropTrailWs]
  | cons c rest ih =>
      rw [dropTrailWs, List.all_cons]
      by_cases he : (dropTrailWs rest).isEmpty = true
      · have hr : rest.all Char.isWhitespace = true := ih.mp (List.isEmpty_iff.mp he)
        by_cases hw : c.isWhitespace = true
        · simp [he, hw, hr]
        · simp [he, hw]
      · have hr : ¬ rest.all Char.isWhitespace = true := by
          intro h
          exact he (by rw [List.isEmpty_iff]; exact ih.mpr h)
        simp [he, hr]

/-- Unfolding the canonical form on a leading whitespace character. -/
theorem canonF_ws (c : Char) (l : List Char) (hc : c.isWhitespace = true) :
    canonF (c :: l) = canonF l := by
  rw [canonF, canonF, trimChars, trimChars, List.dropWhile_cons, if_pos hc]

/-- Unfolding the canonical form on a leading non-whitespace character. -/
theorem canonF_nonws (c : Char) (l : List Char) (hc : c.isWhitespace = false) :
    canonF (c :: l) = c :: canonH l := by
  rw [canonF, canonH, trimChars, List.dropWhile_cons, if_neg (by simp [hc]),
    dropTrailWs, if_neg (by simp [hc]), collapseWsAux, if_neg (by simp [hc])]

/-- Unfolding `canonH` on a non-whitespace head. -/
theorem canonH_nonws (c : Char) (l : List Char) (hc : c.isWhitespace = false) :
    canonH (c :: l) = c :: canonH l := by
  rw [canonH, canonH, dropTrailWs, if_neg (by simp [hc]), collapseWsAux,
    if_neg (by simp [hc])]

/-- Unfolding `canonH` on a whitespace head. -/
theorem canonH_ws (c : Char) (l : List Char) (hc : c.isWhitespace = true) :
    canonH (c :: l) =
      if l.all Char.isWhitespace = true then [] else ' ' :: canonK l := by
  rw [canonH, canonK, dropTrailWs]
  by_cases ha : l.all Char.isWhitespace = true
  · have he : dropTrailWs l = [] := (dropTrailWs_eq_nil l).mpr ha
    rw [if_pos (by simp [he, hc]), if_pos ha]
    rfl
  · have he : ¬ dropTrailWs l = [] := fun h => ha ((dropTrailWs_eq_nil l).mp h)
    rw [if_neg (by simp [List.isEmpty_iff, he]), if_neg ha, collapseWsAux, if_pos hc]
    rfl

/-- Unfolding `canonK` on a non-whitespace head. -/
theorem canonK_nonws (c : Char) (l : List Char) (hc : c.isWhitespace = false) :
    canonK (c :: l) = c :: canonH l := by
  rw [canonK, canonH, dropTrailWs, if_neg (by simp [hc]), collapseWsAux,
    if_neg (by simp [hc])]

/-- Unfolding `canonK` on a whitespace head. -/
theorem canonK_ws (c : Char) (l : List Char) (hc : c.isWhitespace = true) :
    canonK (c :: l) =
      if l.all Char.isWhitespace = true then [] else canonK l := by
  rw [canonK, dropTrailWs]
  by_cases ha : l.all Char.isWhitespace = true
  · have he : dropTrailWs l = [] := (dropTrailWs_eq_nil l).mpr ha
    rw [if_pos (by simp [he, hc]), if_pos ha]
    rfl
  · have he : ¬ dropTrailWs l = [] := fun h => ha ((dropTrailWs_eq_nil l).mp h)
    rw [if_neg (by simp [List.isEmpty_iff, he]), if_neg ha, canonK, collapseWsAux,
      if_pos hc]
    rfl

/-- Replacing one whitespace character by another never changes the
canonical forms. -/
theorem canon_ws_kind (c d : Char) (hc : c.isWhitespace = true)
    (hd : d.isWhitespace = true) :
    ∀ (a b : List Char),
      canonF (a ++ c :: b) = canonF (a ++ d :: b) ∧
      canonH (a ++ c :: b) = canonH (a ++ d :: b) ∧
      canonK (a ++ c :: b) = canonK (a ++ d :: b) := by
  intro a
  induction a with
  | nil =>
      intro b
      refine ⟨?_, ?_, ?_⟩
      · rw [List.nil_append, List.nil_append, canonF_ws c b hc, canonF_ws d b hd]
      · rw [List.nil_append, List.nil_append, canonH_ws c b hc, canonH_ws d b hd]
      · rw [List.nil_append, List.nil_append, canonK_ws c b hc, canonK_ws d b hd]
  | cons e a ih =>
      intro b
      have ihb := ih b
      cases he : e.isWhitespace with
      | true =>
          have hall : ((a ++ c :: b).all Char.isWhitespace) =
              ((a ++ d :: b).all Char.isWhitespace) := by
            rw [List.all_append, List.all_append, List.all_cons, List.all_cons, hc, hd]
          refine ⟨?_, ?_, ?_⟩
          · rw [List.cons_append, List.cons_append, canonF_ws e (a ++ c :: b) he,
              canonF_ws e (a ++ d :: b) he]
            exact ihb.1
          · rw [List.cons_append, List.cons_append, canonH_ws e (a ++ c :: b) he,
              canonH_ws e (a ++ d :: b) he, hall, ihb.2.2]
          · rw [List.cons_append, List.cons_append, canonK_ws e (a ++ c :: b) he,
              canonK_ws e (a ++ d :: b) he, hall, ihb.2.2]
      | false =>
          refine ⟨?_, ?_, ?_⟩
          · rw [List.cons_append, List.cons_append, canonF_nonws e (a ++ c :: b) he,
              canonF_nonws e (a ++ d :: b) he, ihb.2.1]
          · rw [List.cons_append, List.cons_append, canonH_nonws e (a ++ c :: b) he,
              canonH_nonws e (a ++ d :: b) he, ihb.2.1]
          · rw [List.cons_append, List.cons_append, canonK_nonws e (a ++ c :: b) he,
              canonK_nonws e (a ++ d :: b) he, ihb.2.1]

/-- Duplicating a whitespace character next to itself never changes the
canonical forms. -/
theorem canon_ws_dup (c d : Char) (hc : c.isWhitespace = true)
    (hd : d.isWhitespace = true) :
    ∀ (a b : List Char),
      canonF (a ++ c :: d :: b) = canonF (a ++ c :: b) ∧
      canonH (a ++ c :: d :: b) = canonH (a ++ c :: b) ∧
      canonK (a ++ c :: d :: b) = canonK (a ++ c :: b) := by
  intro a
  induction a with
  | nil =>
      intro b
      have hall2 : ((d :: b).all Char.isWhitespace) = b.all Char.isWhitespace := by
        rw [List.all_cons, hd, Bool.true_and]
      refine ⟨?_, ?_, ?_⟩
      · rw [List.nil_append, List.nil_append, canonF_ws c (d :: b) hc,
          canonF_ws d b hd, canonF_ws c b hc]
      · rw [List.nil_append, List.nil_append, canonH_ws c (d :: b) hc,
          canonH_ws c b hc, hall2, canonK_ws d b hd]
        by_cases hb : b.all Char.isWhitespace = true
        · simp only [if_pos hb]
        · simp only [if_neg hb]
      · rw [List.nil_append, List.nil_append, canonK_ws c (d :: b) hc,
          canonK_ws c b hc, hall2, canonK_ws d b hd]
        by_cases hb : b.all Char.isWhitespace = true
        · simp only [if_pos hb]
        · simp only [if_neg hb]
  | cons e a ih =>
      intro b
      have ihb := ih b
      cases he : e.isWhitespace with
      | true =>
          have hall : ((a ++ c :: d :: b).all Char.isWhitespace) =
              ((a ++ c :: b).all Char.isWhitespace) := by
            rw [List.all_append, List.all_append, List.all_cons, List.all_cons,
              List.all_cons, hc, hd]
            simp
          refine ⟨?_, ?_, ?_⟩
          · rw [List.cons_append, List.cons_append, canonF_ws e (a ++ c :: d :: b) he,
              canonF_ws e (a ++ c :: b) he]
            exact ihb.1
          · rw [List.cons_append, List.cons_append, canonH_ws e (a ++ c :: d :: b) he,
              canonH_ws e (a ++ c :: b) he, hall, ihb.2.2]
          · rw [List.cons_append, List.cons_append, canonK_ws e (a ++ c :: d :: b) he,
              canonK_ws e (a ++ c :: b) he, hall, ihb.2.2]
      | false =>
          refine ⟨?_, ?_, ?_⟩
          · rw [List.cons_append, List.cons_append, canonF_nonws e (a ++ c :: d :: b) he,
              canonF_nonws e (a ++ c :: b) he, ihb.2.1]
          · rw [List.cons_append, List.cons_append, canonH_nonws e (a ++ c :: d :: b) he,
              canonH_nonws e (a ++ c :: b) he, ihb.2.1]
          · rw [List.cons_append, List.cons_append, canonK_nonws e (a ++ c :: d :: b) he,
              canonK_nonws e (a ++ c :: b) he, ihb.2.1]

/-- An all-whitespace list has empty canonical form. -/
theorem canonF_allws (l : List Char) (h : l.all Char.isWhitespace = true) :
    canonF l = [] := by
  have hdw : l.dropWhile Char.isWhitespace = [] := by
    induction l with
    | nil => rfl
    | cons c rest ih =>
        rw [List.all_cons] at h
        rw [List.dropWhile_cons, if_pos (by simp at h; exact h.1)]
        exact ih (by simp at h ⊢; exact h.2)
  rw [canonF, trimChars, hdw]
  rfl

/-- Leading whitespace never changes the canonical form. -/
theorem canonF_ws_front (pre : List Char) (hpre : pre.all Char.isWhitespace = true) :
    ∀ l, canonF (pre ++ l) = canonF l := by
  induction pre with
  | nil => intro l; rw [List.nil_append]
  | cons e pre ih =>
      intro l
      rw [List.all_cons] at hpre
      rw [List.cons_append, canonF_ws e (pre ++ l) (by simp at hpre; exact hpre.1)]
      exact ih (by simp at hpre ⊢; exact hpre.2) l

/-- Trailing whitespace never changes the canonical forms. -/
theorem canon_ws_suffix (post : List Char) (hpost : post.all Char.isWhitespace = true) :
    ∀ l, canonF (l ++ post) = canonF l ∧ canonH (l ++ post) = canonH l ∧
      canonK (l ++ post) = canonK l := by
  intro l
  induction l with
  | nil =>
      have hdtl : dropTrailWs post = [] := (dropTrailWs_eq_nil post).mpr hpost
      refine ⟨?_, ?_, ?_⟩
      · rw [List.nil_append, canonF_allws post hpost]
        rfl
      · rw [List.nil_append, canonH, hdtl]
        rfl
      · rw [List.nil_append, canonK, hdtl]
        rfl
  | cons e l' ih =>
      have hall : ((l' ++ post).all Char.isWhitespace) = l'.all Char.isWhitespace := by
        rw [List.all_append, hpost, Bool.and_true]
      cases he : e.isWhitespace with
      | true =>
          refine ⟨?_, ?_, ?_⟩
          · rw [List.cons_append, canonF_ws e (l' ++ post) he, canonF_ws e l' he, ih.1]
          · rw [List.cons_append, canonH_ws e (l' ++ post) he, canonH_ws e l' he,
              hall, ih.2.2]
          · rw [List.cons_append, canonK_ws e (l' ++ post) he, canonK_ws e l' he,
              hall, ih.2.2]
      | false =>
          refine ⟨?_, ?_, ?_⟩
          · rw [List.cons_append, canonF_nonws e (l' ++ post) he, canonF_nonws e l' he,
              ih.2.1]
          · rw [List.cons_append, canonH_nonws e (l' ++ post) he, canonH_nonws e l' he,
              ih.2.1]
          · rw [List.cons_append, canonK_nonws e (l' ++ post) he, canonK_nonws e l' he,
              ih.2.1]

/-- The head, if any, is not whitespace. -/
def headNonWs : List Char → Bool
  | [] => true
  | c :: _ => !c.isWhitespace

/-- The last character, if any, is not whitespace. -/
def lastNonWs : List Char → Bool
  | [] => true
  | [c] => !c.isWhitespace
  | _ :: c :: rest => lastNonWs (c :: rest)

/-- No two adjacent whitespace characters. -/
def noWsRun : List Char → Bool
  | [] => true
  | [_] => true
  | a :: b :: rest => !(a.isWhitespace && b.isWhitespace) && noWsRun (b :: rest)

/-- Every whitespace character is a plain space. -/
def wsOnlySpace (l : List Char) : Bool :=
  l.all (fun c => !c.isWhitespace || c = ' ')

/-- Collapsed text uses only plain spaces as whitespace. -/
theorem wsOnlySpace_collapse : ∀ (l : List Char) (b : Bool),
    wsOnlySpace (collapseWsAux b l) = true := by
  intro l
  induction l with
  | nil => intro b; rfl
  | cons c rest ih =>
      intro b
      rw [collapseWsAux]
      by_cases hw : c.isWhitespace = true
      · rw [if_pos hw]
        cases b with
        | true => exact ih true
        | false =>
            rw [if_neg (by simp)]
            have h2 := ih true
            rw [wsOnlySpace, List.all_cons, Bool.and_eq_true]
            exact ⟨by decide, by rw [wsOnlySpace] at h2; exact h2⟩
      · rw [if_neg hw]
        have h2 := ih false
        rw [wsOnlySpace, List.all_cons, Bool.and_eq_true]
        refine ⟨?_, by rw [wsOnlySpace] at h2; exact h2⟩
        simp [hw]

/-- Collapsing in whitespace state yields a non-whitespace head. -/
theorem headNonWs_collapse_true : ∀ l : List Char,
    headNonWs (collapseWsAux true l) = true := by
  intro l
  induction l with
  | nil => rfl
  | cons c rest ih =>
      rw [collapseWsAux]
      by_cases hw : c.isWhitespace = true
      · rw [if_pos hw, if_pos rfl]
        exact ih
      · rw [if_neg hw]
        simp [headNonWs, hw]

/-- Prepending to a run-free list keeps it run-free when the junction is
not double whitespace. -/
theorem noWsRun_cons_of (a : Char) (t : List Char)
    (h : a.isWhitespace = false ∨ headNonWs t = true) (ht : noWsRun t = true) :
    noWsRun (a :: t) = true := by
  cases t with
  | nil => rfl
  | cons b t' =>
      rw [noWsRun]
      have hab : (a.isWhitespace && b.isWhitespace) = false := by
        rcases h with h | h
        · simp [h]
        · simp only [headNonWs] at h
          simp at h
          simp [h]
      rw [hab]
      simpa using ht

/-- Collapsed text has no whitespace runs. -/
theorem noWsRun_collapse : ∀ (l : List Char) (b : Bool),
    noWsRun (collapseWsAux b l) = true := by
  intro l
  induction l with
  | nil => intro b; rfl
  | cons c rest ih =>
      intro b
      rw [collapseWsAux]
      by_cases hw : c.isWhitespace = true
      · rw [if_pos hw]
        cases b with
        | true => exact ih true
        | false =>
            exact noWsRun_cons_of ' ' (collapseWsAux true rest)
              (Or.inr (headNonWs_collapse_true rest)) (ih true)
      · rw [if_neg hw]
        exact noWsRun_cons_of c (collapseWsAux false rest)
          (Or.inl (by simpa using hw)) (ih false)

/-- Collapsing in word state preserves a non-whitespace head. -/
theorem headNonWs_collapse_false (z : List Char) (h : headNonWs z = true) :
    headNonWs (collapseWsAux false z) = true := by
  cases z with
  | nil => rfl
  | cons c rest =>
      simp only [headNonWs] at h
      simp at h
      rw [collapseWsAux, if_neg (by simp [h])]
      simp [headNonWs, h]

/-- Dropping leading whitespace yields a non-whitespace head. -/
theorem headNonWs_dropWhile : ∀ l : List Char,
    headNonWs (l.dropWhile Char.isWhitespace) = true := by
  intro l
  induction l with
  | nil => rfl
  | cons c rest ih =>
      rw [List.dropWhile_cons]
      by_cases hw : c.isWhitespace = true
      · rw [if_pos hw]
        exact ih
      · rw [if_neg hw]
        simpa [headNonWs] using hw

/-- Dropping trailing whitespace preserves a non-whitespace head. -/
theorem headNonWs_dropTrail (z : List Char) (h : headNonWs z = true) :
    headNonWs (dropTrailWs z) = true := by
  cases z with
  | nil => rfl
  | cons c rest =>
      rw [dropTrailWs]
      by_cases hcond : ((dropTrailWs rest).isEmpty && c.isWhitespace) = true
      · rw [if_pos hcond]
        rfl
      · rw [if_neg hcond]
        exact h

/-- A cons over a nonempty tail has the tail's last character. -/
theorem lastNonWs_cons_of_ne (a : Char) (t : List Char) (h : t ≠ []) :
    lastNonWs (a :: t) = lastNonWs t := by
  cases t with
  | nil => exact absurd rfl h
  | cons b t' => rfl

/-- Dropping trailing whitespace yields a non-whitespace last character. -/
theorem lastNonWs_dropTrail : ∀ l : List Char,
    lastNonWs (dropTrailWs l) = true := by
  intro l
  induction l with
  | nil => rfl
  | cons c rest ih =>
      rw [dropTrailWs]
      by_cases hcond : ((dropTrailWs rest).isEmpty && c.isWhitespace) = true
      · rw [if_pos hcond]
        rfl
      · rw [if_neg hcond]
        cases hx : dropTrailWs rest with
        | nil =>
            have hwc : c.isWhitespace = false := by
              rw [hx] at hcond
              simpa using hcond
            simp [lastNonWs, hwc]
        | cons x xs =>
            rw [lastNonWs_cons_of_ne c (x :: xs) (by simp)]
            rw [← hx]
            exact ih

/-- Collapsing a nonempty list ending in non-whitespace keeps both
properties. -/
theorem collapse_lastNonWs : ∀ (l : List Char) (b : Bool), l ≠ [] →
    lastNonWs l = true →
    collapseWsAux b l ≠ [] ∧ lastNonWs (collapseWsAux b l) = true := by
  intro l
  induction l with
  | nil => intro b h; exact absurd rfl h
  | cons c rest ih =>
      intro b _ hlast
      cases rest with
      | nil =>
          have hwc : c.isWhitespace = false := by
            simpa [lastNonWs] using hlast
          rw [collapseWsAux, if_neg (by simp [hwc])]
          refine ⟨by simp, ?_⟩
          show lastNonWs [c] = true
          simp [lastNonWs, hwc]
      | cons r0 r' =>
          have hlast' : lastNonWs (r0 :: r') = true := hlast
          have ih' := fun b2 => ih b2 (by simp) hlast'
          rw [collapseWsAux]
          by_cases hw : c.isWhitespace = true
          · rw [if_pos hw]
            cases b with
            | true =>
                rw [if_pos rfl]
                exact ih' true
            | false =>
                rw [if_neg (by simp)]
                obtain ⟨hne, hl⟩ := ih' true
                refine ⟨by simp, ?_⟩
                rw [lastNonWs_cons_of_ne ' ' _ hne]
                exact hl
          · rw [if_neg hw]
            obtain ⟨hne, hl⟩ := ih' false
            refine ⟨by simp, ?_⟩
            rw [lastNonWs_cons_of_ne c _ hne]
            exact hl

/-- A list with a non-whitespace head loses nothing to leading trim. -/
theorem dropWhile_fix (l : List Char) (h : headNonWs l = true) :
    l.dropWhile Char.isWhitespace = l := by
  cases l with
  | nil => rfl
  | cons c rest =>
      simp only [headNonWs] at h
      simp at h
      rw [List.dropWhile_cons, if_neg (by simp [h])]

/-- A list with a non-whitespace last character loses nothing to trailing
trim. -/
theorem dropTrail_fix : ∀ l : List Char, lastNonWs l = true → dropTrailWs l = l := by
  intro l
  induction l with
  | nil => intro _; rfl
  | cons c rest ih =>
      intro h
      cases rest with
      | nil =>
          have hwc : c.isWhitespace = false := by simpa [lastNonWs] using h
          rw [dropTrailWs]
          rw [if_neg (by simp [hwc])]
          rfl
      | cons r0 r' =>
          have h' : lastNonWs (r0 :: r') = true := h
          have hrest : dropTrailWs (r0 :: r') = r0 :: r' := ih h'
          rw [dropTrailWs, hrest, if_neg (by simp)]

/-- The tail of a run-free list is run-free. -/
theorem noWsRun_tail (c : Char) (t : List Char) (h : noWsRun (c :: t) = true) :
    noWsRun t = true := by
  cases t with
  | nil => rfl
  | cons b t' =>
      rw [noWsRun] at h
      exact ((Bool.and_eq_true _ _) ▸ h).2

/-- Space-only, run-free text is a fixed point of collapsing. -/
theorem collapse_fix : ∀ l : List Char, wsOnlySpace l = true → noWsRun l = true →
    collapseWsAux false l = l ∧
      (headNonWs l = true → collapseWsAux true l = l) := by
  intro l
  induction l with
  | nil => intro _ _; exact ⟨rfl, fun _ => rfl⟩
  | cons c rest ih =>
      intro hsp hnr
      have hsp' : wsOnlySpace rest = true := by
        simp only [wsOnlySpace, List.all_cons, Bool.and_eq_true] at hsp
        exact hsp.2
      have hspc : (!c.isWhitespace || c = ' ') = true := by
        simp only [wsOnlySpace, List.all_cons, Bool.and_eq_true] at hsp
        exact hsp.1
      have hnr' : noWsRun rest = true := noWsRun_tail c rest hnr
      have ihr := ih hsp' hnr'
      by_cases hw : c.isWhitespace = true
      · have hcsp : c = ' ' := by
          rw [hw] at hspc
          simpa using hspc
        have hhead : headNonWs rest = true := by
          cases rest with
          | nil => rfl
          | cons r0 r' =>
              rw [noWsRun] at hnr
              have := ((Bool.and_eq_true _ _) ▸ hnr).1
              rw [hw] at this
              simp only [headNonWs]
              simpa using this
        constructor
        · rw [collapseWsAux, if_pos hw, if_neg (by simp), ihr.2 hhead, hcsp]
        · intro hh
          simp only [headNonWs, hw] at hh
          simp at hh
      · constructor
        · rw [collapseWsAux, if_neg hw, ihr.1]
        · intro _
          rw [collapseWsAux, if_neg hw, ihr.1]

/-- The canonical form is idempotent. -/
theorem canonF_canonF (l : List Char) : canonF (canonF l) = canonF l := by
  by_cases hz : trimChars l = []
  · have h1 : canonF l = [] := by
      rw [canonF, hz]
      rfl
    rw [h1]
    rfl
  · have hsp := wsOnlySpace_collapse (trimChars l) false
    have hnr := noWsRun_collapse (trimChars l) false
    have hhead : headNonWs (canonF l) = true := by
      rw [canonF]
      exact headNonWs_collapse_false _
        (headNonWs_dropTrail _ (headNonWs_dropWhile l))
    have hlast : lastNonWs (canonF l) = true := by
      rw [canonF]
      exact (collapse_lastNonWs (trimChars l) false hz (lastNonWs_dropTrail _)).2
    rw [show canonF (canonF l) =
        collapseWsAux false (dropTrailWs ((canonF l).dropWhile Char.isWhitespace))
      from rfl]
    rw [dropWhile_fix _ hhead, dropTrail_fix _ hlast]
    exact (collapse_fix (canonF l) (by rw [canonF]; exact hsp)
      (by rw [canonF]; exact hnr)).1

/-- C8: key-part normalization is idempotent, and two key values that
differ only in letter case (charwise equal after lowercasing), in the
kind of a whitespace character, in duplication of whitespace next to
whitespace, or in surrounding whitespace, normalize identically — in
particular the spec's example rows with values "INV-1 " and "inv-1"
produce the same composite key. -/
theorem claim_C8_key_normalization :
    (∀ s : String, normalizeKeyPart (normalizeKeyPart s) = normalizeKeyPart s) ∧
    (∀ s t : String, s.data.map Char.toLower = t.data.map Char.toLower →
      normalizeKeyPart s = normalizeKeyPart t) ∧
    (∀ (a b : List Char) (c d : Char), c.isWhitespace = true → d.isWhitespace = true →
      normalizeKeyPart (String.mk (a ++ c :: b)) =
        normalizeKeyPart (String.mk (a ++ d :: b))) ∧
    (∀ (a b : List Char) (c d : Char), c.isWhitespace = true → d.isWhitespace = true →
      normalizeKeyPart (String.mk (a ++ c :: d :: b)) =
        normalizeKeyPart (String.mk (a ++ c :: b))) ∧
    (∀ (pre post : List Char) (s : String), pre.all Char.isWhitespace = true →
      post.all Char.isWhitespace = true →
      normalizeKeyPart (String.mk (pre ++ s.data ++ post)) = normalizeKeyPart s) ∧
    normalizeKey [("InvoiceNo", "INV-1 ")] ["InvoiceNo"] =
      normalizeKey [("InvoiceNo", "inv-1")] ["InvoiceNo"] := by
  have hco : (Char.toLower ∘ Char.toLower) = Char.toLower := by
    funext x
    simp [Function.comp, toLower_toLower]
  have hcw : (Char.isWhitespace ∘ Char.toLower) = Char.isWhitespace := by
    funext x
    simp [Function.comp, toLower_isWhitespace]
  refine ⟨?_, ?_, ?_, ?_, ?_, ?_⟩
  · intro s
    rw [normalizeKeyPart_eq_canonF s, normalizeKeyPart_eq_canonF]
    show String.mk (canonF ((canonF (s.data.map Char.toLower)).map Char.toLower)) =
      String.mk (canonF (s.data.map Char.toLower))
    have hMM : (s.data.map Char.toLower).map Char.toLower =
        s.data.map Char.toLower := by
      rw [List.map_map, hco]
    have hcomm : canonF ((s.data.map Char.toLower).map Char.toLower) =
        (canonF (s.data.map Char.toLower)).map Char.toLower := by
      rw [canonF, canonF, trimChars_map_toLower, collapseWsAux_map_toLower]
    have hfix : (canonF (s.data.map Char.toLower)).map Char.toLower =
        canonF (s.data.map Char.toLower) := by
      rw [← hcomm, hMM]
    rw [hfix, canonF_canonF]
  · intro s t h
    rw [normalizeKeyPart_eq_canonF, normalizeKeyPart_eq_canonF, h]
  · intro a b c d hc hd
    rw [normalizeKeyPart_eq_canonF, normalizeKeyPart_eq_canonF]
    show String.mk (canonF ((a ++ c :: b).map Char.toLower)) =
      String.mk (canonF ((a ++ d :: b).map Char.toLower))
    rw [List.map_append, List.map_cons, List.map_append, List.map_cons]
    exact congrArg String.mk
      ((canon_ws_kind (Char.toLower c) (Char.toLower d)
        (by rw [toLower_isWhitespace]; exact hc)
        (by rw [toLower_isWhitespace]; exact hd)
        (a.map Char.toLower) (b.map Char.toLower)).1)
  · intro a b c d hc hd
    rw [normalizeKeyPart_eq_canonF, normalizeKeyPart_eq_canonF]
    show String.mk (canonF ((a ++ c :: d :: b).map Char.toLower)) =
      String.mk (canonF ((a ++ c :: b).map Char.toLower))
    rw [List.map_append, List.map_cons, List.map_cons, List.map_append, List.map_cons]
    exact congrArg String.mk
      ((canon_ws_dup (Char.toLower c) (Char.toLower d)
        (by rw [toLower_isWhitespace]; exact hc)
        (by rw [toLower_isWhitespace]; exact hd)
        (a.map Char.toLower) (b.map Char.toLower)).1)
  · intro pre post s hpre hpost
    rw [normalizeKeyPart_eq_canonF, normalizeKeyPart_eq_canonF]
    show String.mk (canonF ((pre ++ s.data ++ post).map Char.toLower)) =
      String.mk (canonF (s.data.map Char.toLower))
    rw [List.map_append, List.map_append, List.append_assoc]
    have hpre' : (pre.map Char.toLower).all Char.isWhitespace = true := by
      rw [List.all_map, hcw]
      exact hpre
    have hpost' : (post.map Char.toLower).all Char.isWhitespace = true := by
      rw [List.all_map, hcw]
      exact hpost
    rw [canonF_ws_front (pre.map Char.toLower) hpre']
    exact congrArg String.mk
      ((canon_ws_suffix (post.map Char.toLower) hpost' (s.data.map Char.toLower)).1)
  · decide

/-- Witness for C8: whitespace-kind invariance at a concrete input. -/
theorem claim_C8_key_normalization_witness :
    normalizeKeyPart (String.mk (['x'] ++ ' ' :: ['y'])) =
      normalizeKeyPart (String.mk (['x'] ++ '\t' :: ['y'])) :=
  claim_C8_key_normalization.2.2.1 ['x'] ['y'] ' ' '\t' (by decide) (by decide)
